import Mathlib

/-!
Verification of the FoldMap display-map layer (`src/editor/display_map/fold_map.rs`).

The buffer, anchor, `TextSummary`, `Point` and `SumTree` modules are external
collaborators of the FoldMap and are not part of the sources; they are modelled
from the specification (sections 3, 4.1, 4.2 and 4.6).  The buffer is modelled
as an immutable list of characters (offsets are character offsets, matching the
`chars` field the FoldMap uses as its `usize` dimension).  The `SumTree` of
transforms is modelled by its item sequence (a list); the cursor operations are
modelled by their dimension semantics from section 4.2.  All FoldMap functions
are translated directly from `fold_map.rs`; Rust panics (assertions, unwraps)
are modelled as error results.
-/

namespace Heat

/-- Modelled from the spec: `Point` is `(row, col)` with lexicographic order. -/
structure Point where
  row : Nat
  col : Nat
deriving Repr, DecidableEq

/-- Modelled from the spec: adding `(0, c)` extends a line, adding `(r > 0, c)`
starts a new line at column `c`. -/
def Point.add (a b : Point) : Point :=
  if b.row > 0 then ⟨a.row + b.row, b.col⟩ else ⟨a.row, a.col + b.col⟩

/-- Modelled from the spec (section 9): `a − b` with `a.row > b.row` yields
`(a.row − b.row, a.col)`, with equal rows `(0, a.col − b.col)`. -/
def Point.sub (a b : Point) : Point :=
  if a.row > b.row then ⟨a.row - b.row, a.col⟩ else ⟨0, a.col - b.col⟩

def Point.zero : Point := ⟨0, 0⟩

/-- Lexicographic strict order on points (the derived `Ord` of the source). -/
def Point.blt (a b : Point) : Bool :=
  a.row < b.row || (a.row = b.row && a.col < b.col)

def Point.ble (a b : Point) : Bool :=
  a.row < b.row || (a.row = b.row && a.col ≤ b.col)

/-- `cmp::min` on points: the left argument is kept on ties. -/
def Point.min (a b : Point) : Point :=
  if a.ble b then a else b

/-- UTF-8 byte length of a character (the `len_utf8` of the source). -/
def charBytes (c : Char) : Nat :=
  if c.toNat < 0x80 then 1
  else if c.toNat < 0x800 then 2
  else if c.toNat < 0x10000 then 3
  else 4

/-- Modelled from the spec (section 3): the monoid summarizing a run of
characters. -/
structure TextSummary where
  bytes : Nat
  chars : Nat
  lines : Point
  first_line_len : Nat
  rightmost_point : Point
deriving Repr, DecidableEq

def TextSummary.zero : TextSummary :=
  { bytes := 0, chars := 0, lines := Point.zero, first_line_len := 0
    rightmost_point := Point.zero }

/-- Modelled from the spec (sections 2 and 4.1): summary concatenation.
`bytes`, `chars`, `lines` sum componentwise; `first_line_len` extends only
while the left run has no newline; `rightmost_point` is the position of the
largest column of the concatenation (ties broken by the earlier position):
the candidates are the left run's rightmost point, the line joined at the
seam (the left run's last-line columns plus the right run's first-line
length), and the right run's rightmost point with its rows offset by the left
run's row count. -/
def TextSummary.add (a b : TextSummary) : TextSummary :=
  { bytes := a.bytes + b.bytes
    chars := a.chars + b.chars
    lines := a.lines.add b.lines
    first_line_len :=
      if a.lines.row > 0 then a.first_line_len else a.first_line_len + b.first_line_len
    rightmost_point :=
      let joined_line_len := a.lines.col + b.first_line_len
      let r1 : Point :=
        if joined_line_len > a.rightmost_point.col then ⟨a.lines.row, joined_line_len⟩
        else a.rightmost_point
      if b.rightmost_point.col > r1.col then
        ⟨a.lines.row + b.rightmost_point.row, b.rightmost_point.col⟩
      else r1 }

/-- Structural invariants of a summary actually generated from text: a
single-line run's first line is the whole run; the rightmost column bounds
the last line and the first line; the rightmost row lies within the run; the
rightmost point is the earliest position attaining its column (so a rightmost
point on a later row strictly beats the first line, and one on the last row
has exactly the last line's length). -/
def TextSummary.good (s : TextSummary) : Bool :=
  (decide (s.lines.row = 0 → s.first_line_len = s.lines.col)) &&
  decide (s.lines.col ≤ s.rightmost_point.col) &&
  decide (s.first_line_len ≤ s.rightmost_point.col) &&
  decide (s.rightmost_point.row ≤ s.lines.row) &&
  (decide (0 < s.rightmost_point.row → s.first_line_len < s.rightmost_point.col)) &&
  (decide (s.rightmost_point.row = s.lines.row → s.rightmost_point.col = s.lines.col))

/-- Summary of a single character: a newline contributes a row step, any other
character one column. -/
def charSummary (c : Char) : TextSummary :=
  if c = '\n' then
    { bytes := 1, chars := 1, lines := ⟨1, 0⟩, first_line_len := 0
      rightmost_point := Point.zero }
  else
    { bytes := charBytes c, chars := 1, lines := ⟨0, 1⟩, first_line_len := 1
      rightmost_point := ⟨0, 1⟩ }

/-- The buffer collaborator is modelled as a list of characters; buffer offsets
are character offsets. -/
abbrev Buffer := List Char

/-- Modelled from the spec (section 4.6): `text_summary()` of the whole buffer. -/
def textSummary (B : Buffer) : TextSummary :=
  B.foldr (fun c acc => (charSummary c).add acc) TextSummary.zero

/-- Modelled from the spec (section 4.6): `text_summary_for_range([lo, hi))`. -/
def textSummaryForRange (B : Buffer) (lo hi : Nat) : TextSummary :=
  textSummary ((B.drop lo).take (hi - lo))

/-- The buffer slice `[lo, hi)` itself (what `chars_at(lo).take(hi - lo)` yields). -/
def bufferSlice (B : Buffer) (lo hi : Nat) : List Char :=
  (B.drop lo).take (hi - lo)

/-- The `(row, col)` position of character offset `o`: the line extent of the
prefix of length `o`. -/
def offsetToPoint (B : Buffer) (o : Nat) : Point :=
  (textSummary (B.take o)).lines

/-- Errors and panics surfaced by the modelled operations.  `invariantViolated`
models the `assert!(transform.display_text.is_none())` in `to_display_offset`
(the spec's InvariantViolated error kind); `panicked` models all other
assertion/unwrap failures; `outOfRange` the explicit out-of-range errors;
`bufferError` errors propagated from the buffer collaborator. -/
inductive FoldError where
  | outOfRange
  | invariantViolated
  | bufferError
  | panicked
deriving Repr, DecidableEq

deriving instance DecidableEq for Except

/-- Lengths of the lines of the buffer (split on newline). -/
def lineLens : Buffer → List Nat
  | [] => [0]
  | c :: t =>
    match lineLens t with
    | [] => []
    | h :: r => if c = '\n' then 0 :: h :: r else (h + 1) :: r

/-- Modelled from the spec (section 4.6): `Point::to_offset`, rejecting rows
past the last line and columns past the line length. -/
def pointToOffset (B : Buffer) (p : Point) : Except FoldError Nat :=
  let ls := lineLens B
  match ls.get? p.row with
  | none => .error .bufferError
  | some len =>
    if p.col ≤ len then
      .ok (((ls.take p.row).foldl (fun a l => a + l + 1) 0) + p.col)
    else .error .bufferError

/-- Modelled from the spec (sections 3, 4.6): an anchor on a fixed buffer
resolves to its creation offset; `after`-anchors order after `before`-anchors
at the same offset (an insertion at the offset would separate them). -/
structure Anchor where
  offset : Nat
  after : Bool
deriving Repr, DecidableEq

/-- `anchor_before(offset)`:  errors when the offset is outside the buffer. -/
def anchorBefore (B : Buffer) (o : Nat) : Except FoldError Anchor :=
  if o ≤ B.length then .ok ⟨o, false⟩ else .error .bufferError

/-- `anchor_after(offset)`:  errors when the offset is outside the buffer. -/
def anchorAfter (B : Buffer) (o : Nat) : Except FoldError Anchor :=
  if o ≤ B.length then .ok ⟨o, true⟩ else .error .bufferError

/-- `Anchor::to_offset` on the fixed buffer (total: anchors are validated at
creation). -/
def Anchor.toOffset (a : Anchor) : Nat := a.offset

/-- Strict order underlying `Anchor::cmp`: by resolved offset, then
before-anchors first. -/
def Anchor.blt (a b : Anchor) : Bool :=
  a.offset < b.offset || (a.offset = b.offset && !a.after && b.after)

/-- Strict order underlying `AnchorRangeExt::cmp` on fold ranges: ascending
start, descending end (wider range first), matching the edit sort of `fold`. -/
def rangeBlt (a b : Anchor × Anchor) : Bool :=
  a.1.blt b.1 || (a.1 = b.1 && b.2.blt a.2)

/-- Modelled from the spec (section 4.4): binary search for the insertion
index in a sorted vector — the index of the first element the comparator does
not place strictly before the probe. -/
def findInsertionIndex (l : List α) (isLt : α → Bool) : Nat :=
  (l.takeWhile isLt).length

/-- `Edit { old_range, new_range }` in buffer character offsets. -/
structure Edit where
  old_start : Nat
  old_end : Nat
  new_start : Nat
  new_end : Nat
deriving Repr, DecidableEq

/-- Modelled from the spec (section 3): `delta = |new_range| − |old_range|`. -/
def Edit.delta (e : Edit) : Int :=
  ((e.new_end - e.new_start : Nat) : Int) - ((e.old_end - e.old_start : Nat) : Int)

/-- Modelled from the spec (section 3): `old_extent = |old_range|`. -/
def Edit.oldExtent (e : Edit) : Nat := e.old_end - e.old_start

structure TransformSummary where
  display : TextSummary
  buffer : TextSummary
deriving Repr, DecidableEq

def TransformSummary.zero : TransformSummary :=
  { display := TextSummary.zero, buffer := TextSummary.zero }

def TransformSummary.add (a b : TransformSummary) : TransformSummary :=
  { display := a.display.add b.display, buffer := a.buffer.add b.buffer }

structure Transform where
  summary : TransformSummary
  display_text : Option Char
deriving Repr, DecidableEq

/-- The root summary of the transform tree (sum of the item summaries). -/
def sumSummary (ts : List Transform) : TransformSummary :=
  ts.foldr (fun t acc => t.summary.add acc) TransformSummary.zero

/-- A passthrough transform for a buffer range (display equals buffer). -/
def passthrough (s : TextSummary) : Transform :=
  { summary := { display := s, buffer := s }, display_text := none }

/-- The display summary of every fold transform: one ellipsis character. -/
def ellipsisSummary : TextSummary :=
  { bytes := charBytes '…', chars := 1, lines := ⟨0, 1⟩, first_line_len := 1
    rightmost_point := ⟨0, 1⟩ }

/-- A fold transform hiding the buffer range summarized by `s`. -/
def foldTransform (s : TextSummary) : Transform :=
  { summary := { display := ellipsisSummary, buffer := s }, display_text := some '…' }

/-- The FoldMap state: the transform tree (as its item sequence) and the sorted
fold list. -/
structure FoldMap where
  transforms : List Transform
  folds : List (Anchor × Anchor)
deriving Repr, DecidableEq

/-- `FoldMap::new`: a single passthrough transform covering the whole buffer. -/
def FoldMap.new (B : Buffer) : FoldMap :=
  { transforms := [passthrough (textSummary B)], folds := [] }

/-- Cursor semantics, modelled from the spec (section 4.2): skip items while
the accumulated dimension-after stays `≤` the target (`SeekBias::Right`).
`dimLe end` decides `dim end ≤ target`; returns the remaining items and the
accumulated summary before the first remaining item. -/
def seekRight (dimLe : TransformSummary → Bool) :
    List Transform → TransformSummary → List Transform × TransformSummary
  | [], acc => ([], acc)
  | t :: ts, acc =>
    let acc' := acc.add t.summary
    if dimLe acc' then seekRight dimLe ts acc' else (t :: ts, acc)

/-- Seek by the `DisplayPoint` dimension with `SeekBias::Right`. -/
def seekDisplayPoint (ts : List Transform) (target : Point) :
    List Transform × TransformSummary :=
  seekRight (fun s => s.display.lines.ble target) ts TransformSummary.zero

/-- Seek by the `DisplayOffset` dimension with `SeekBias::Right`. -/
def seekDisplayOffset (ts : List Transform) (target : Nat) :
    List Transform × TransformSummary :=
  seekRight (fun s => s.display.chars ≤ target) ts TransformSummary.zero

/-- Seek by the buffer `Point` dimension with `SeekBias::Right`. -/
def seekBufferPoint (ts : List Transform) (target : Point) :
    List Transform × TransformSummary :=
  seekRight (fun s => s.buffer.lines.ble target) ts TransformSummary.zero

/-- `FoldMap::len`: the display character count. -/
def FoldMap.len (m : FoldMap) : Nat :=
  (sumSummary m.transforms).display.chars

/-- `FoldMap::max_point`: the display line extent. -/
def FoldMap.maxPoint (m : FoldMap) : Point :=
  (sumSummary m.transforms).display.lines

/-- `FoldMap::rightmost_point`. -/
def FoldMap.rightmostPoint (m : FoldMap) : Point :=
  (sumSummary m.transforms).display.rightmost_point

/-- `FoldMap::to_display_offset`, translated from the source: seek by display
point with right bias; with zero overshoot return the accumulated display
chars; otherwise require an item (else out of range), require a passthrough
(the failed `assert!` is the InvariantViolated error), convert the overshot
buffer point to an offset and add the in-transform character overshoot. -/
def toDisplayOffset (B : Buffer) (ts : List Transform) (point : Point) :
    Except FoldError Nat :=
  let c := seekDisplayPoint ts point
  let overshoot := point.sub c.2.display.lines
  let offset := c.2.display.chars
  if overshoot = Point.zero then
    .ok offset
  else
    match c.1 with
    | [] => .error .outOfRange
    | transform :: _ =>
      if transform.display_text.isSome then .error .invariantViolated
      else
        match pointToOffset B (c.2.buffer.lines.add overshoot) with
        | .error e => .error e
        | .ok endBufferOffset => .ok (offset + (endBufferOffset - c.2.buffer.chars))

/-- `FoldMap::to_buffer_point`, translated from the source: seek by display
point with right bias and add the overshoot to the buffer start. -/
def toBufferPoint (ts : List Transform) (displayPoint : Point) : Point :=
  let c := seekDisplayPoint ts displayPoint
  c.2.buffer.lines.add (displayPoint.sub c.2.display.lines)

/-- `FoldMap::to_display_point`, translated from the source: seek by buffer
point with right bias; the display point is the display start plus the
overshoot, clamped to the display end of the reached transform. -/
def toDisplayPoint (ts : List Transform) (point : Point) : Point :=
  let c := seekBufferPoint ts point
  let overshoot := point.sub c.2.buffer.lines
  let dEnd : Point :=
    match c.1 with
    | [] => c.2.display.lines
    | t :: _ => (c.2.add t.summary).display.lines
  Point.min (c.2.display.lines.add overshoot) dEnd

/-- The scan loop of `FoldMap::is_line_folded`: stop at the first fold
transform; keep scanning while the current transform still ends on the asked
row. -/
def isLineFoldedLoop (row : Nat) : List Transform → TransformSummary → Bool
  | [], _ => false
  | t :: ts, acc =>
    if t.display_text.isSome then true
    else
      let acc' := acc.add t.summary
      if acc'.display.lines.row = row then isLineFoldedLoop row ts acc' else false

/-- `FoldMap::is_line_folded`, translated from the source. -/
def isLineFolded (ts : List Transform) (displayRow : Nat) : Bool :=
  let c := seekDisplayPoint ts ⟨displayRow, 0⟩
  isLineFoldedLoop displayRow c.1 c.2

/-- The state of the `Chars` iterator: the cursor (remaining transforms plus
the summary accumulated before them), the display offset, and the live buffer
sub-iterator (`Take<buffer::Chars>`, modelled as the list it will yield). -/
structure CharsState where
  rest : List Transform
  startSum : TransformSummary
  offset : Nat
  buffer_chars : Option (List Char)
deriving Repr, DecidableEq

/-- `cursor.end().display.chars` — the display-offset dimension after the
current item (equal to the start at the past-end sentinel). -/
def cursorEndChars (s : CharsState) : Nat :=
  match s.rest with
  | [] => s.startSum.display.chars
  | t :: _ => (s.startSum.add t.summary).display.chars

/-- `Chars::next`, translated from the source.  The recursion after installing
the buffer sub-iterator is run on fuel; the code diverges only on transform
trees whose passthrough summaries are inconsistent (then the sub-iterator is
empty while the display offset has not reached the transform end), which the
fuel models as iterator exhaustion. -/
def charsNextAux (B : Buffer) : Nat → CharsState → Option (Char × CharsState)
  | 0, _ => none
  | fuel + 1, s =>
    match s.buffer_chars with
    | some (c :: cs) =>
      some (c, { s with offset := s.offset + 1, buffer_chars := some cs })
    | _ =>
      let s1 : CharsState :=
        if s.offset = cursorEndChars s then
          match s.rest with
          | [] => s
          | t :: ts => { s with rest := ts, startSum := s.startSum.add t.summary }
        else s
      match s1.rest with
      | [] => none
      | t :: _ =>
        match t.display_text with
        | some c => some (c, { s1 with offset := s1.offset + 1 })
        | none =>
          let overshoot := s1.offset - s1.startSum.display.chars
          let bufferStart := s1.startSum.buffer.chars + overshoot
          let charCount := (s1.startSum.add t.summary).buffer.chars - bufferStart
          charsNextAux B fuel
            { s1 with buffer_chars := some (bufferSlice B bufferStart (bufferStart + charCount)) }

/-- One step of the `Chars` iterator.  Two fuel units per remaining transform
cover every advance the nested call can make. -/
def charsNext (B : Buffer) (s : CharsState) : Option (Char × CharsState) :=
  charsNextAux B (2 * s.rest.length + 2) s

/-- `FoldMap::chars_at`, translated from the source: resolve the display
offset, then seek by it with right bias. -/
def charsAt (B : Buffer) (ts : List Transform) (point : Point) :
    Except FoldError CharsState :=
  match toDisplayOffset B ts point with
  | .error e => .error e
  | .ok offset =>
    let c := seekDisplayOffset ts offset
    .ok { rest := c.1, startSum := c.2, offset := offset, buffer_chars := none }

/-- Collect the characters the iterator yields (fuel bounds the yield count). -/
def charsCollect (B : Buffer) : Nat → CharsState → List Char
  | 0, _ => []
  | fuel + 1, s =>
    match charsNext B s with
    | none => []
    | some (c, s') => c :: charsCollect B fuel s'

/-- The full display text: `chars_at(DisplayPoint(0, 0)).collect()`.  The fuel
is one more than the display length, enough for every well-formed map. -/
def displayText (B : Buffer) (ts : List Transform) : Except FoldError (List Char) :=
  match charsAt B ts Point.zero with
  | .error e => .error e
  | .ok s => .ok (charsCollect B ((sumSummary ts).display.chars + 1) s)

/-- The `usize` buffer-offset cursor of `apply_edits`: remaining transforms
plus the buffer characters consumed before them. -/
abbrev ChCursor := List Transform × Nat

/-- `cursor.slice(&target, SeekBias::Left)`: collect items while they end
strictly before the target; returns the slice and the advanced cursor. -/
def sliceLeftChars : List Transform → Nat → Nat → List Transform × ChCursor
  | [], pos, _ => ([], [], pos)
  | t :: ts, pos, target =>
    if pos + t.summary.buffer.chars < target then
      let r := sliceLeftChars ts (pos + t.summary.buffer.chars) target
      (t :: r.1, r.2)
    else ([], t :: ts, pos)

/-- `cursor.seek(&target, SeekBias::Right)` on the buffer-offset dimension:
skip items while they end at or before the target. -/
def seekRightChars : List Transform → Nat → Nat → ChCursor
  | [], pos, _ => ([], pos)
  | t :: ts, pos, target =>
    if pos + t.summary.buffer.chars ≤ target then
      seekRightChars ts (pos + t.summary.buffer.chars) target
    else (t :: ts, pos)

/-- `cursor.next()`: advance one item (a no-op at the past-end sentinel). -/
def cursorNextChars : ChCursor → ChCursor
  | ([], pos) => ([], pos)
  | (t :: ts, pos) => (ts, pos + t.summary.buffer.chars)

/-- The coalescing loop of `apply_edits` step 2: absorb following edits while
the next edit starts at or before the current edit's end (the cursor
position), accumulating their deltas and re-seeking when an absorbed edit
extends further.  Returns how many edits were absorbed, the cursor (whose
position is the final `old_range.end`), and the accumulated delta. -/
def coalesceEdits : List Edit → ChCursor → Int → Nat × ChCursor × Int
  | [], cur, delta => (0, cur, delta)
  | ne :: rest, cur, delta =>
    if ne.old_start > cur.2 then (0, cur, delta)
    else
      let delta' := delta + ne.delta
      let r :=
        if ne.old_end > cur.2 then
          coalesceEdits rest (cursorNextChars (seekRightChars cur.1 cur.2 ne.old_end)) delta'
        else coalesceEdits rest cur delta'
      (r.1 + 1, r.2)

/-- The fold-merging inner loop of `apply_edits` step 5 (and of the tests'
`merged_fold_ranges`): absorb following folds while they start at or before
the current fold's end, keeping the maximal end.  Returns the merged end and
how many folds were absorbed. -/
def absorbFolds : Nat → List (Nat × Nat) → Nat × Nat
  | e, [] => (e, 0)
  | e, f :: rest =>
    if f.1 ≤ e then
      let r := absorbFolds (Nat.max e f.2) rest
      (r.1, r.2 + 1)
    else (e, 0)

/-- `apply_edits` steps 4–6: emit transforms for every fold starting before
`new_range.end`, merging contiguous folds, preceding each fold by a
passthrough for the uncovered gap; a fold that is empty at rebuild time
produces no transform.  The failed `assert!(fold.start >= sum.buffer.chars)`
is modelled as a panic. -/
def emitFolds (B : Buffer) (newEnd : Nat) :
    Nat → List (Nat × Nat) → List Transform → Except FoldError (List Transform)
  | _, [], newT => .ok newT
  | 0, _ :: _, newT => .ok newT
  | fuel + 1, f :: rest, newT =>
    if f.1 < newEnd then
      let sum := (sumSummary newT).buffer.chars
      if sum ≤ f.1 then
        let a := absorbFolds f.2 rest
        let newT1 :=
          if f.1 > sum then newT ++ [passthrough (textSummaryForRange B sum f.1)] else newT
        let newT2 :=
          if a.1 > f.1 then newT1 ++ [foldTransform (textSummaryForRange B f.1 a.1)] else newT1
        emitFolds B newEnd fuel (rest.drop a.2) newT2
      else .error .panicked
    else .ok newT

/-- The main rebuild loop of `apply_edits`, translated from the source: per
edit, slice up to its start, widen it to the transform boundary, advance past
its end, coalesce following edits, recompute the new end from the extent and
delta (the `as usize` cast wraps), then emit the overlapping folds and the
trailing passthrough. -/
def applyEditsLoop (B : Buffer) (folds : List (Anchor × Anchor)) :
    Nat → List Edit → ChCursor → List Transform →
    Except FoldError (List Transform × ChCursor)
  | _, [], cur, newT => .ok (newT, cur)
  | 0, _ :: _, cur, newT => .ok (newT, cur)
  | fuel + 1, edit :: rest, cur, newT =>
    let s := sliceLeftChars cur.1 cur.2 edit.old_start
    let newT0 := newT ++ s.1
    let cur0 := s.2
    if cur0.2 > edit.old_start then
      -- usize underflow in `old_range.start - cursor.start()` (cursor already past)
      .error .panicked
    else if edit.new_start + cur0.2 < edit.old_start then
      -- usize underflow in `new_range.start -= old_range.start - cursor.start()`
      .error .panicked
    else
      let newStart := edit.new_start - (edit.old_start - cur0.2)
      let oldStart := cur0.2
      let cur1 := cursorNextChars (seekRightChars cur0.1 cur0.2 edit.old_end)
      let delta0 : Int :=
        Edit.delta ⟨oldStart, edit.old_end, newStart, edit.new_end⟩
      let co := coalesceEdits rest cur1 delta0
      let cur2 := co.2.1
      let delta := co.2.2
      let oldEnd := cur2.2
      let newEndI : Int := ((newStart + (oldEnd - oldStart) : Nat) : Int) + delta
      let newEnd := (newEndI % (2 : Int) ^ 64).toNat
      match anchorBefore B newStart with
      | .error e => .error e
      | .ok anchor =>
        let foldsStart := findInsertionIndex folds (fun probe => probe.1.blt anchor)
        let foldRanges := (folds.drop foldsStart).map fun f => (f.1.toOffset, f.2.toOffset)
        match emitFolds B newEnd (foldRanges.length + 1) foldRanges newT0 with
        | .error e => .error e
        | .ok newT1 =>
          let sum := (sumSummary newT1).buffer.chars
          let newT2 :=
            if sum < newEnd then newT1 ++ [passthrough (textSummaryForRange B sum newEnd)]
            else newT1
          applyEditsLoop B folds fuel (rest.drop co.1) cur2 newT2

/-- `FoldMap::apply_edits`, translated from the source: run the rebuild loop
from a cursor seeked to 0 with right bias and append the cursor's suffix. -/
def applyEdits (B : Buffer) (m : FoldMap) (edits : List Edit) :
    Except FoldError (List Transform) :=
  let cur0 := seekRightChars m.transforms 0 0
  match applyEditsLoop B m.folds (edits.length + 1) edits cur0 [] with
  | .error e => .error e
  | .ok r => .ok (r.1 ++ r.2.1)

/-- `apply_edits` as a mutation: the transform tree is swapped in only on
success; on an error the map is unchanged (`self.transforms` is assigned
last). -/
def FoldMap.applyEditsOp (B : Buffer) (m : FoldMap) (edits : List Edit) :
    FoldMap × Option FoldError :=
  match applyEdits B m edits with
  | .ok ts => ({ m with transforms := ts }, none)
  | .error e => (m, some e)

/-- `range.to_offset(buffer)` for a `usize` offset: the identity, rejected
outside the buffer (modelled from the spec's BufferError kind). -/
def usizeToOffset (B : Buffer) (o : Nat) : Except FoldError Nat :=
  if o ≤ B.length then .ok o else .error .bufferError

/-- Comparator of the edit sort in `FoldMap::fold`: ascending `old_range`
start, descending `old_range` end. -/
def editLe (a b : Edit) : Bool :=
  a.old_start < b.old_start || (a.old_start = b.old_start && b.old_end ≤ a.old_end)

/-- Insertion into a sorted list (the comparator-sorted result of the source's
`sort_unstable_by`; ties carry identical edits, so any sorted permutation is
the same list). -/
def insertSorted (le : α → α → Bool) (x : α) : List α → List α
  | [] => [x]
  | y :: ys => if le x y then x :: y :: ys else y :: insertSorted le x ys

def sortEdits (l : List Edit) : List Edit :=
  l.foldr (insertSorted editLe) []

/-- The per-range loop of `FoldMap::fold`: resolve the range to offsets,
record a zero-delta edit over it, and insert the `anchor_after(start) ..
anchor_before(end)` fold at its sorted position.  On an error the folds
inserted so far remain (the source mutates `self.folds` in place). -/
def foldRangesLoop (B : Buffer) :
    List (Nat × Nat) → List (Anchor × Anchor) → List Edit →
    List (Anchor × Anchor) × List Edit × Option FoldError
  | [], folds, edits => (folds, edits, none)
  | r :: rest, folds, edits =>
    match usizeToOffset B r.1, usizeToOffset B r.2 with
    | .ok start, .ok end_ =>
      let edits' := edits ++ [⟨start, end_, start, end_⟩]
      -- anchor_after(start) .. anchor_before(end): both in range by the checks above
      let fold : Anchor × Anchor := (⟨start, true⟩, ⟨end_, false⟩)
      let ix := findInsertionIndex folds fun probe => rangeBlt probe fold
      foldRangesLoop B rest (folds.insertIdx ix fold) edits'
    | .error e, _ => (folds, edits, some e)
    | _, .error e => (folds, edits, some e)

/-- `FoldMap::fold`, translated from the source: build the fold list and the
zero-delta edits, sort the edits, and rebuild through `apply_edits`.  On an
error the fold list keeps the mutations made so far and the transform tree is
untouched. -/
def FoldMap.fold (B : Buffer) (m : FoldMap) (ranges : List (Nat × Nat)) :
    FoldMap × Option FoldError :=
  let r := foldRangesLoop B ranges m.folds []
  match r.2.2 with
  | some e => ({ m with folds := r.1 }, some e)
  | none =>
    let edits := sortEdits r.2.1
    match applyEdits B { m with folds := r.1 } edits with
    | .error e => ({ m with folds := r.1 }, some e)
    | .ok ts => ({ transforms := ts, folds := r.1 }, none)

/-- The `retain` of `FoldMap::unfold`: keep a fold iff it starts after the
range's end anchor or ends before the range's start anchor; every removed
fold contributes a zero-delta edit over its current offset span (in fold-list
order). -/
def unfoldRetain (startA endA : Anchor) :
    List (Anchor × Anchor) → List (Anchor × Anchor) × List Edit
  | [] => ([], [])
  | f :: rest =>
    let r := unfoldRetain startA endA rest
    if endA.blt f.1 || f.2.blt startA then (f :: r.1, r.2)
    else (r.1, ⟨f.1.toOffset, f.2.toOffset, f.1.toOffset, f.2.toOffset⟩ :: r.2)

/-- The per-range loop of `FoldMap::unfold`: promote the range ends to
`anchor_before(start) .. anchor_after(end)` and drop every intersecting fold. -/
def unfoldLoop (B : Buffer) :
    List (Nat × Nat) → List (Anchor × Anchor) → List Edit →
    List (Anchor × Anchor) × List Edit × Option FoldError
  | [], folds, edits => (folds, edits, none)
  | r :: rest, folds, edits =>
    match usizeToOffset B r.1, usizeToOffset B r.2 with
    | .ok s, .ok e =>
      let res := unfoldRetain ⟨s, false⟩ ⟨e, true⟩ folds
      unfoldLoop B rest res.1 (edits ++ res.2)
    | .error err, _ => (folds, edits, some err)
    | _, .error err => (folds, edits, some err)

/-- `FoldMap::unfold`, translated from the source. -/
def FoldMap.unfold (B : Buffer) (m : FoldMap) (ranges : List (Nat × Nat)) :
    FoldMap × Option FoldError :=
  let r := unfoldLoop B ranges m.folds []
  match r.2.2 with
  | some e => ({ m with folds := r.1 }, some e)
  | none =>
    match applyEdits B { m with folds := r.1 } r.2.1 with
    | .error e => ({ m with folds := r.1 }, some e)
    | .ok ts => ({ transforms := ts, folds := r.1 }, none)

/-- The merge pass of the tests' `merged_fold_ranges`: absorb overlapping or
abutting successors (same condition as the rebuild's fold merging) and keep
only nonempty merged ranges. -/
def mergeRanges : Nat → List (Nat × Nat) → List (Nat × Nat)
  | _, [] => []
  | 0, _ :: _ => []
  | fuel + 1, f :: rest =>
    let a := absorbFolds f.2 rest
    if a.1 > f.1 then (f.1, a.1) :: mergeRanges fuel (rest.drop a.2)
    else mergeRanges fuel (rest.drop a.2)

/-- The merged offset spans of the fold list (the tests' `merged_fold_ranges`). -/
def FoldMap.mergedFoldRanges (m : FoldMap) : List (Nat × Nat) :=
  mergeRanges (m.folds.length + 1) (m.folds.map fun f => (f.1.toOffset, f.2.toOffset))

/-- The buffer text with every character of each merged fold span replaced by
a single ellipsis (the spec's description of the display text). -/
def ellipsize (B : Buffer) : Nat → List (Nat × Nat) → List Char
  | pos, [] => B.drop pos
  | pos, (s, e) :: rest => bufferSlice B pos s ++ '…' :: ellipsize B e rest

/-- The buffer-offset spans of the fold transforms, in order (`o` is the
buffer offset accumulated before the remaining transforms). -/
def foldSpans (o : Nat) : List Transform → List (Nat × Nat)
  | [] => []
  | t :: ts =>
    if t.display_text.isSome then
      (o, o + t.summary.buffer.chars) :: foldSpans (o + t.summary.buffer.chars) ts
    else foldSpans (o + t.summary.buffer.chars) ts

/-- The transforms tile the buffer from offset `o` to its end: each transform's
buffer summary is the text summary of the next span of the buffer, with no gap
and no overlap. -/
def tilesFromB (B : Buffer) : Nat → List Transform → Bool
  | o, [] => o = B.length
  | o, t :: ts =>
    decide (t.summary.buffer = textSummaryForRange B o (o + t.summary.buffer.chars)) &&
      tilesFromB B (o + t.summary.buffer.chars) ts

/-- Shape of a single transform: a fold transform shows exactly one ellipsis
and hides a nonempty span; a passthrough shows its buffer span verbatim. -/
def transformShapeB (t : Transform) : Bool :=
  match t.display_text with
  | some c =>
    decide (c = '…') && decide (t.summary.display = ellipsisSummary) &&
      decide (0 < t.summary.buffer.chars)
  | none => decide (t.summary.display = t.summary.buffer)

/-- Well-formedness of a transform tree over the buffer. -/
def transformsWF (B : Buffer) (ts : List Transform) : Bool :=
  tilesFromB B 0 ts && ts.all transformShapeB

/-- The fold list is sorted (by start anchor, then descending end anchor) and
every anchor range lies inside the buffer with its start at or before its
end. -/
def foldsWF (B : Buffer) (folds : List (Anchor × Anchor)) : Bool :=
  folds.Chain' (fun a b => !rangeBlt b a) &&
    folds.all fun f =>
      decide (f.1.offset ≤ f.2.offset) && decide (f.2.offset ≤ B.length) &&
        f.1.after && !f.2.after

/-- Full well-formedness of a FoldMap state: the transforms tile the buffer,
every transform is shaped correctly, the fold list is sorted and in range, and
the fold transforms' spans are exactly the merged fold ranges. -/
def FoldMap.WF (B : Buffer) (m : FoldMap) : Bool :=
  transformsWF B m.transforms && foldsWF B m.folds &&
    decide (foldSpans 0 m.transforms = m.mergedFoldRanges)

/-- The FoldMap states reachable from `FoldMap::new` on a fixed buffer by
successful `fold` and `unfold` calls (on an error the spec directs callers to
discard the map, and the coverage/display invariants are quantified over
successful mutations). -/
inductive Reachable (B : Buffer) : FoldMap → Prop where
  | new : Reachable B (FoldMap.new B)
  | fold (m : FoldMap) (ranges : List (Nat × Nat)) :
      Reachable B m → (FoldMap.fold B m ranges).2 = none →
      Reachable B (FoldMap.fold B m ranges).1
  | unfold (m : FoldMap) (ranges : List (Nat × Nat)) :
      Reachable B m → (FoldMap.unfold B m ranges).2 = none →
      Reachable B (FoldMap.unfold B m ranges).1

/-- A small sample buffer for concrete witnesses. -/
def sampleBuf : Buffer := String.toList "abcdef"

/-- A two-line sample buffer for concrete witnesses. -/
def sampleBuf2 : Buffer := String.toList "abc\ndef"

/-- A synthetic fold transform spanning two display columns (no state built by
`apply_edits` has this shape; it exposes the interior of a fold in
`to_buffer_point`/`to_display_offset`). -/
def wideFoldTransform : Transform :=
  { summary :=
      { display :=
          { bytes := 2, chars := 2, lines := ⟨0, 2⟩, first_line_len := 2
            rightmost_point := ⟨0, 2⟩ }
        buffer :=
          { bytes := 4, chars := 4, lines := ⟨0, 4⟩, first_line_len := 4
            rightmost_point := ⟨0, 4⟩ } }
    display_text := some '…' }

/-- A transform tree containing only the synthetic wide fold. -/
def wideFoldState : List Transform := [wideFoldTransform]

/-- A sample map folding the whole of `sampleBuf`. -/
def wholeFold : FoldMap :=
  (FoldMap.fold sampleBuf (FoldMap.new sampleBuf) [(0, 6)]).1

/-- A sample folded map used by concrete witnesses: folds `[1, 2)` and
`[4, 6)` of `"abcdef"`. -/
def sampleFolded : FoldMap :=
  (FoldMap.fold sampleBuf (FoldMap.new sampleBuf) [(1, 2), (4, 6)]).1

/-- The characters each transform contributes to the display: a fold shows
one ellipsis, a passthrough its buffer slice (`o` is the buffer offset before
the remaining transforms). -/
def renderTransforms (B : Buffer) : Nat → List Transform → List Char
  | _, [] => []
  | a, t :: ts =>
    (if t.display_text.isSome then ['…']
      else bufferSlice B a (a + t.summary.buffer.chars)) ++
      renderTransforms B (a + t.summary.buffer.chars) ts

/-- A ten-character buffer exhibiting the rebuild defect. -/
def bugBuf : Buffer := ['a', 'b', 'c', 'd', 'e', 'f', 'g', 'h', 'i', 'j']

/-- `fold([5..8])` from the fresh map: a well-formed state with one fold. -/
def bugFold1 : FoldMap × Option FoldError :=
  FoldMap.fold bugBuf (FoldMap.new bugBuf) [(5, 8)]

/-- `fold([1..2, 2..5])` next: the merge chain `1..2 → 2..5 → 5..8` escapes
`new_range.end = 5`, yet the cursor suffix re-appends the old `5..8` fold
transform, double-covering the buffer span `[5, 8)`. -/
def bugFold2 : FoldMap × Option FoldError :=
  FoldMap.fold bugBuf bugFold1.1 [(1, 2), (2, 5)]

/-- `fold([9..10])` on the corrupted state (the range abuts no fold). -/
def bugFold3 : FoldMap × Option FoldError :=
  FoldMap.fold bugBuf bugFold2.1 [(9, 10)]

/-- `unfold([9..10])` right after: the rebuild does not restore the display. -/
def bugUnfold4 : FoldMap × Option FoldError :=
  FoldMap.unfold bugBuf bugFold3.1 [(9, 10)]

/-- The transform tree a successful `fold([s..e])` builds from the fresh map:
a passthrough up to `s`, the fold (when nonempty), and a passthrough for the
rest of the buffer. -/
def foldOnceTree (B : Buffer) (s e : Nat) : List Transform :=
  (if 0 < s then [passthrough (textSummaryForRange B 0 s)] else []) ++
    (if s < e then [foldTransform (textSummaryForRange B s e)] else []) ++
      (if Nat.max s e < B.length then
        [passthrough (textSummaryForRange B (Nat.max s e) B.length)] else [])

theorem Point.add_row (a b : Point) : (a.add b).row = a.row + b.row := by
  unfold Point.add; split <;> simp <;> omega

theorem Point.ble_iff {a b : Point} :
    a.ble b = true ↔ (a.row < b.row ∨ (a.row = b.row ∧ a.col ≤ b.col)) := by
  simp [Point.ble]

theorem Point.sub_self (p : Point) : p.sub p = Point.zero := by
  unfold Point.sub Point.zero; simp

theorem Point.add_zero_right (p : Point) : p.add Point.zero = p := by
  unfold Point.add Point.zero; simp

theorem sumSummary_cons (t : Transform) (ts : List Transform) :
    sumSummary (t :: ts) = t.summary.add (sumSummary ts) := rfl

theorem TransformSummary.add_display (a b : TransformSummary) :
    (a.add b).display = a.display.add b.display := rfl

theorem TransformSummary.add_buffer (a b : TransformSummary) :
    (a.add b).buffer = a.buffer.add b.buffer := rfl

theorem TextSummary.add_lines (a b : TextSummary) :
    (a.add b).lines = a.lines.add b.lines := rfl

theorem TextSummary.add_chars (a b : TextSummary) :
    (a.add b).chars = a.chars + b.chars := rfl

theorem TransformSummary.add_display_row (a b : TransformSummary) :
    (a.add b).display.lines.row = a.display.lines.row + b.display.lines.row := by
  rw [TransformSummary.add_display, TextSummary.add_lines, Point.add_row]

/-- Seeking a display point past every transform's extent runs off the end of
the tree. -/
theorem seekDP_past_end :
    ∀ (ts : List Transform) (acc : TransformSummary) (row : Nat),
      acc.display.lines.row + (sumSummary ts).display.lines.row < row →
      (seekRight (fun s => s.display.lines.ble ⟨row, 0⟩) ts acc).1 = []
  | [], _, _, _ => rfl
  | t :: ts, acc, row, h => by
    rw [sumSummary_cons, TransformSummary.add_display_row] at h
    have hrow : (acc.add t.summary).display.lines.row +
        (sumSummary ts).display.lines.row < row := by
      rw [TransformSummary.add_display_row]; omega
    have hble : (acc.add t.summary).display.lines.ble ⟨row, 0⟩ = true := by
      rw [Point.ble_iff]; left
      show (acc.add t.summary).display.lines.row < row
      omega
    rw [seekRight, hble]
    exact seekDP_past_end ts _ row hrow

/-- C10: for every display row strictly greater than `max_point().row`,
`is_line_folded` is total and returns `false`: the seek passes the last
transform, the cursor has no item, and the scan loop exits immediately. -/
theorem isLineFolded_past_end_false (m : FoldMap) (row : Nat)
    (h : m.maxPoint.row < row) : isLineFolded m.transforms row = false := by
  have hnil : (seekDisplayPoint m.transforms ⟨row, 0⟩).1 = [] := by
    apply seekDP_past_end
    have hz : TransformSummary.zero.display.lines.row = 0 := rfl
    unfold FoldMap.maxPoint at h
    omega
  show isLineFoldedLoop row (seekDisplayPoint m.transforms ⟨row, 0⟩).1
      (seekDisplayPoint m.transforms ⟨row, 0⟩).2 = false
  rw [hnil]
  rfl

/-- Witness for C10 at a concrete folded map and row. -/
theorem isLineFolded_past_end_false_witness :
    sampleFolded.maxPoint.row < 3 ∧ isLineFolded sampleFolded.transforms 3 = false :=
  ⟨by decide, isLineFolded_past_end_false sampleFolded 3 (by decide)⟩

/-- C4: when the display-point seek reaches a transform with nonzero
overshoot, `to_display_offset` returns the InvariantViolated error if the
transform is a fold (the failed assertion), and otherwise the accumulated
display chars plus the in-transform character overshoot. -/
theorem toDisplayOffset_interior (B : Buffer) (ts : List Transform) (p : Point)
    (t : Transform) (rest' : List Transform) (st : TransformSummary)
    (hseek : seekDisplayPoint ts p = (t :: rest', st))
    (hov : ¬p.sub st.display.lines = Point.zero) :
    (t.display_text.isSome = true →
      toDisplayOffset B ts p = .error .invariantViolated) ∧
    (t.display_text = none → ∀ o : Nat,
      pointToOffset B (st.buffer.lines.add (p.sub st.display.lines)) = .ok o →
      toDisplayOffset B ts p = .ok (st.display.chars + (o - st.buffer.chars))) := by
  constructor
  · intro hfold
    unfold toDisplayOffset
    rw [hseek]
    simp [hov, hfold]
  · intro hpass o ho
    unfold toDisplayOffset
    rw [hseek]
    simp [hov, hpass, ho]

/-- Witness for C4: a seek landing inside the synthetic wide fold errors, and
a seek landing inside a passthrough yields start chars plus overshoot. -/
theorem toDisplayOffset_interior_witness :
    toDisplayOffset sampleBuf wideFoldState ⟨0, 1⟩ = .error .invariantViolated ∧
    toDisplayOffset sampleBuf (FoldMap.new sampleBuf).transforms ⟨0, 1⟩ = .ok 1 :=
  ⟨(toDisplayOffset_interior sampleBuf wideFoldState ⟨0, 1⟩ wideFoldTransform []
      TransformSummary.zero (by decide) (by decide)).1 (by decide),
    by
      have h := (toDisplayOffset_interior sampleBuf (FoldMap.new sampleBuf).transforms
        ⟨0, 1⟩ (passthrough (textSummary sampleBuf)) [] TransformSummary.zero
        (by decide) (by decide)).2 (by decide) 1 (by decide)
      simpa using h⟩

/-- C3 counterexample: the display point `(0, 1)` lies strictly inside the
synthetic wide fold (the seek reaches the fold transform with nonzero
overshoot), yet `to_buffer_point` does not clamp to the fold's start buffer
point — it adds the overshoot. -/
theorem toBufferPoint_no_clamp_counterexample :
    seekDisplayPoint wideFoldState ⟨0, 1⟩ = (wideFoldTransform :: [], TransformSummary.zero) ∧
    wideFoldTransform.display_text.isSome = true ∧
    ¬(⟨0, 1⟩ : Point).sub TransformSummary.zero.display.lines = Point.zero ∧
    ¬toBufferPoint wideFoldState ⟨0, 1⟩ = TransformSummary.zero.buffer.lines := by
  decide

theorem Point.ext' {a b : Point} (hr : a.row = b.row) (hc : a.col = b.col) : a = b := by
  cases a; cases b; simp_all

theorem Point.zero_ble (p : Point) : Point.zero.ble p = true := by
  rw [Point.ble_iff]
  show 0 < p.row ∨ (0 = p.row ∧ 0 ≤ p.col)
  omega

theorem Point.add_col_one (a : Point) : a.add ⟨0, 1⟩ = ⟨a.row, a.col + 1⟩ := rfl

/-- A display-point seek with right bias can reach a single-column transform
only with zero overshoot: the target then equals the transform's display
start. -/
theorem seekDP_one_col_start :
    ∀ (ts : List Transform) (acc : TransformSummary) (p : Point),
      (∀ t ∈ ts, t.display_text.isSome = true → t.summary.display.lines = ⟨0, 1⟩) →
      acc.display.lines.ble p = true →
      ∀ t rest' st,
        seekRight (fun s => s.display.lines.ble p) ts acc = (t :: rest', st) →
        t.display_text.isSome = true → p = st.display.lines
  | [], _, _, _, _, _, _, _, hseek, _ => by simp [seekRight] at hseek
  | t₀ :: ts, acc, p, hwf, hacc, t, rest', st, hseek, hfold => by
    rw [seekRight] at hseek
    by_cases hc : (acc.add t₀.summary).display.lines.ble p = true
    · rw [if_pos hc] at hseek
      exact seekDP_one_col_start ts _ p
        (fun u hu hf => hwf u (List.mem_cons_of_mem _ hu) hf) hc t rest' st hseek hfold
    · rw [if_neg hc] at hseek
      obtain ⟨h1, h2⟩ := Prod.mk.injEq .. ▸ hseek
      obtain ⟨ht, _⟩ := List.cons.injEq .. ▸ h1
      subst h2
      have hone : t₀.summary.display.lines = ⟨0, 1⟩ :=
        hwf t₀ (List.mem_cons_self _ _) (ht ▸ hfold)
      have hlines : (acc.add t₀.summary).display.lines =
          ⟨acc.display.lines.row, acc.display.lines.col + 1⟩ := by
        rw [TransformSummary.add_display, TextSummary.add_lines, hone, Point.add_col_one]
      rw [hlines] at hc
      have ha := Point.ble_iff.mp hacc
      have hb : ¬(acc.display.lines.row < p.row ∨
          (acc.display.lines.row = p.row ∧ acc.display.lines.col + 1 ≤ p.col)) := by
        intro hx
        exact hc (Point.ble_iff.mpr (by
          rcases hx with hx | ⟨hx, hy⟩
          · exact Or.inl hx
          · exact Or.inr ⟨hx, hy⟩))
      apply Point.ext' <;> omega

/-- C3 (amended): in any state whose fold transforms occupy exactly one
display column (every tree `apply_edits` builds), a display point reaching a
fold transform has zero overshoot, so `to_buffer_point` returns the buffer
point of the fold's start; the clamping described by the claim never has
anything to cut off (and the code indeed performs none). -/
theorem toBufferPoint_fold_start (ts : List Transform)
    (hwf : ∀ t ∈ ts, t.display_text.isSome = true → t.summary.display.lines = ⟨0, 1⟩)
    (p : Point) (t : Transform) (rest' : List Transform) (st : TransformSummary)
    (hseek : seekDisplayPoint ts p = (t :: rest', st))
    (hfold : t.display_text.isSome = true) :
    toBufferPoint ts p = st.buffer.lines := by
  have hp : p = st.display.lines :=
    seekDP_one_col_start ts TransformSummary.zero p hwf (Point.zero_ble p)
      t rest' st hseek hfold
  show (seekDisplayPoint ts p).2.buffer.lines.add
      (p.sub (seekDisplayPoint ts p).2.display.lines) = st.buffer.lines
  rw [hseek]
  show st.buffer.lines.add (p.sub st.display.lines) = st.buffer.lines
  rw [hp, Point.sub_self, Point.add_zero_right]

/-- Witness for C3 (amended) at a whole-buffer fold. -/
theorem toBufferPoint_fold_start_witness :
    toBufferPoint wholeFold.transforms ⟨0, 0⟩ = TransformSummary.zero.buffer.lines :=
  toBufferPoint_fold_start wholeFold.transforms (by decide) ⟨0, 0⟩
    (foldTransform (textSummaryForRange sampleBuf 0 6)) [] TransformSummary.zero
    (by decide) (by decide)

/-- C6: `unfold` of a range removes exactly the folds whose closed span
`[start, end]` intersects the closed range (abutment counts as intersection)
and keeps every other fold. -/
theorem unfold_removes_intersecting (B : Buffer) (m : FoldMap) (s e : Nat)
    (hs : s ≤ B.length) (he : e ≤ B.length) :
    (FoldMap.unfold B m [(s, e)]).1.folds =
      m.folds.filter fun f => !(decide (f.1.toOffset ≤ e) && decide (s ≤ f.2.toOffset)) := by
  have hloop : (unfoldLoop B [(s, e)] m.folds []).1 =
      (unfoldRetain ⟨s, false⟩ ⟨e, true⟩ m.folds).1 := by
    unfold unfoldLoop usizeToOffset
    rw [if_pos hs, if_pos he]
    rfl
  have hretain : ∀ l : List (Anchor × Anchor),
      (unfoldRetain ⟨s, false⟩ ⟨e, true⟩ l).1 =
        l.filter fun f => !(decide (f.1.toOffset ≤ e) && decide (s ≤ f.2.toOffset)) := by
    intro l
    induction l with
    | nil => rfl
    | cons f rest ih =>
      have hcond : ((Anchor.mk e true).blt f.1 || f.2.blt ⟨s, false⟩) =
          !(decide (f.1.toOffset ≤ e) && decide (s ≤ f.2.toOffset)) := by
        simp only [Anchor.blt, Anchor.toOffset]
        by_cases h1 : e < f.1.offset <;> by_cases h2 : f.2.offset < s <;>
          simp [h1, h2] <;> omega
      simp only [unfoldRetain, List.filter_cons, ← hcond]
      cases hk : ((Anchor.mk e true).blt f.1 || f.2.blt ⟨s, false⟩) <;> simp [ih]
  have hr : (unfoldLoop B [(s, e)] m.folds []).1 =
      m.folds.filter fun f => !(decide (f.1.toOffset ≤ e) && decide (s ≤ f.2.toOffset)) := by
    rw [hloop]; exact hretain m.folds
  simp only [FoldMap.unfold]
  rcases hu : unfoldLoop B [(s, e)] m.folds [] with ⟨folds', edits', err⟩
  rw [hu] at hr
  cases err with
  | some er => simpa using hr
  | none =>
    cases applyEdits B { m with folds := (folds', edits', (none : Option FoldError)).1 }
        (folds', edits', (none : Option FoldError)).2.1 with
    | error er => simpa using hr
    | ok ts => simpa using hr

/-- Witness for C6: unfolding `[2, 3)` on the sample map removes the abutting
fold `[1, 2)` and keeps `[4, 6)`. -/
theorem unfold_removes_intersecting_witness :
    2 ≤ sampleBuf.length ∧ 3 ≤ sampleBuf.length ∧
    (FoldMap.unfold sampleBuf sampleFolded [(2, 3)]).1.folds =
      sampleFolded.folds.filter fun f =>
        !(decide (f.1.toOffset ≤ 3) && decide (2 ≤ f.2.toOffset)) :=
  ⟨by decide, by decide,
    unfold_removes_intersecting sampleBuf sampleFolded 2 3 (by decide) (by decide)⟩

/-- C5 (amended): whenever `fold`, `unfold`, or `apply_edits` returns an
error, the transform tree is untouched (the source swaps a rebuilt tree in
only after the whole rebuild succeeds), so the coverage invariant persists
from the last successful rebuild; the fold list, however, keeps the partial
mutations made before the error, so those folds need not be reflected by the
tree. -/
theorem mutation_error_keeps_transforms (B : Buffer) (m : FoldMap)
    (ranges ranges' : List (Nat × Nat)) (edits : List Edit) :
    ((FoldMap.fold B m ranges).2.isSome = true →
      (FoldMap.fold B m ranges).1.transforms = m.transforms) ∧
    ((FoldMap.unfold B m ranges').2.isSome = true →
      (FoldMap.unfold B m ranges').1.transforms = m.transforms) ∧
    ((FoldMap.applyEditsOp B m edits).2.isSome = true →
      (FoldMap.applyEditsOp B m edits).1.transforms = m.transforms) := by
  refine ⟨?_, ?_, ?_⟩
  · simp only [FoldMap.fold]
    rcases hfr : foldRangesLoop B ranges m.folds [] with ⟨folds', edits', err⟩
    cases err with
    | some er => intro _; rfl
    | none =>
      cases hap : applyEdits B { m with folds := folds' } (sortEdits edits') with
      | error er => intro _; rfl
      | ok ts => intro h; simp at h
  · simp only [FoldMap.unfold]
    rcases hfr : unfoldLoop B ranges' m.folds [] with ⟨folds', edits', err⟩
    cases err with
    | some er => intro _; rfl
    | none =>
      cases hap : applyEdits B { m with folds := folds' } edits' with
      | error er => intro _; rfl
      | ok ts => intro h; simp at h
  · simp only [FoldMap.applyEditsOp]
    cases hap : applyEdits B m edits with
    | error er => intro _; rfl
    | ok ts => intro h; simp at h

/-- Witness for C5 (amended): a `fold` call whose second range is out of
range fails and leaves the transform tree unchanged. -/
theorem mutation_error_keeps_transforms_witness :
    (FoldMap.fold sampleBuf (FoldMap.new sampleBuf) [(1, 2), (10, 20)]).2.isSome = true ∧
    (FoldMap.fold sampleBuf (FoldMap.new sampleBuf) [(1, 2), (10, 20)]).1.transforms =
      (FoldMap.new sampleBuf).transforms :=
  ⟨by decide, (mutation_error_keeps_transforms sampleBuf (FoldMap.new sampleBuf)
      [(1, 2), (10, 20)] [] []).1 (by decide)⟩

/-- C5 counterexample: the same failed `fold` call leaves the fold `[1, 2)`
in the fold list (its merged span is nonempty) while the untouched transform
tree contains no fold transform — the two are not mutually consistent after
the error. -/
theorem mutation_error_inconsistent_counterexample :
    (FoldMap.fold sampleBuf (FoldMap.new sampleBuf) [(1, 2), (10, 20)]).2.isSome = true ∧
    ¬(foldSpans 0 (FoldMap.fold sampleBuf (FoldMap.new sampleBuf)
        [(1, 2), (10, 20)]).1.transforms =
      (FoldMap.fold sampleBuf (FoldMap.new sampleBuf) [(1, 2), (10, 20)]).1.mergedFoldRanges) := by
  decide

theorem TextSummary.good_iff {s : TextSummary} :
    s.good = true ↔
      ((s.lines.row = 0 → s.first_line_len = s.lines.col) ∧
        s.lines.col ≤ s.rightmost_point.col ∧
        s.first_line_len ≤ s.rightmost_point.col ∧
        s.rightmost_point.row ≤ s.lines.row ∧
        (0 < s.rightmost_point.row → s.first_line_len < s.rightmost_point.col) ∧
        (s.rightmost_point.row = s.lines.row → s.rightmost_point.col = s.lines.col)) := by
  simp only [TextSummary.good, Bool.and_eq_true, decide_eq_true_eq]
  tauto

theorem TextSummary.good_mk_iff {bby bch bR bC bf brR brC : Nat} :
    (TextSummary.mk bby bch ⟨bR, bC⟩ bf ⟨brR, brC⟩).good = true ↔
      ((bR = 0 → bf = bC) ∧ bC ≤ brC ∧ bf ≤ brC ∧ brR ≤ bR ∧
        (0 < brR → bf < brC) ∧ (brR = bR → brC = bC)) := by
  simp only [TextSummary.good, Bool.and_eq_true, decide_eq_true_eq]
  tauto

theorem TextSummary.good_add {a b : TextSummary} (ha : a.good = true)
    (hb : b.good = true) : (a.add b).good = true := by
  rw [TextSummary.good_iff]
  obtain ⟨aby, ach, ⟨aR, aC⟩, af, ⟨arR, arC⟩⟩ := a
  obtain ⟨bby, bch, ⟨bR, bC⟩, bf, ⟨brR, brC⟩⟩ := b
  rw [TextSummary.good_mk_iff] at ha hb
  obtain ⟨a1, a2, a3, a4, a5, a6⟩ := ha
  obtain ⟨b1, b2, b3, b4, b5, b6⟩ := hb
  simp only [TextSummary.add, Point.add, apply_ite Point.row, apply_ite Point.col,
    gt_iff_lt, Nat.zero_add, Nat.add_zero, ite_self]
  refine ⟨?_, ?_, ?_, ?_, ?_, ?_⟩ <;> ((try split_ifs) <;> omega)

theorem Point.add_assoc (a b c : Point) : (a.add b).add c = a.add (b.add c) := by
  unfold Point.add
  split_ifs <;> simp_all [Point.mk.injEq] <;> omega

set_option maxHeartbeats 1600000 in
theorem TextSummary.nl_add_assoc {u v : TextSummary} (hu : u.good = true)
    (hv : v.good = true) :
    ((TextSummary.mk 1 1 ⟨1, 0⟩ 0 ⟨0, 0⟩).add u).add v =
      (TextSummary.mk 1 1 ⟨1, 0⟩ 0 ⟨0, 0⟩).add (u.add v) := by
  obtain ⟨bby, bch, ⟨bR, bC⟩, bf, ⟨brR, brC⟩⟩ := u
  obtain ⟨cby, cch, ⟨cR, cC⟩, cf, ⟨crR, crC⟩⟩ := v
  rw [TextSummary.good_mk_iff] at hu hv
  obtain ⟨b1, b2, b3, b4, b5, b6⟩ := hu
  obtain ⟨c1, c2, c3, c4, c5, c6⟩ := hv
  simp only [TextSummary.add, Point.add, apply_ite Point.row, apply_ite Point.col,
    gt_iff_lt, Nat.zero_lt_one, lt_self_iff_false, if_true, if_false,
    Nat.zero_add, Nat.add_zero, ite_self, TextSummary.mk.injEq, Point.mk.injEq]
  refine ⟨?_, ?_, ?_, ?_, ?_⟩ <;>
    ((try split_ifs) <;> (try simp only [Point.mk.injEq, and_true, true_and]) <;> omega)
set_option maxHeartbeats 1600000 in
theorem TextSummary.col_add_assoc {k : Nat} {u v : TextSummary} (hu : u.good = true)
    (hv : v.good = true) :
    ((TextSummary.mk k 1 ⟨0, 1⟩ 1 ⟨0, 1⟩).add u).add v =
      (TextSummary.mk k 1 ⟨0, 1⟩ 1 ⟨0, 1⟩).add (u.add v) := by
  obtain ⟨bby, bch, ⟨bR, bC⟩, bf, ⟨brR, brC⟩⟩ := u
  obtain ⟨cby, cch, ⟨cR, cC⟩, cf, ⟨crR, crC⟩⟩ := v
  rw [TextSummary.good_mk_iff] at hu hv
  obtain ⟨b1, b2, b3, b4, b5, b6⟩ := hu
  obtain ⟨c1, c2, c3, c4, c5, c6⟩ := hv
  simp only [TextSummary.add, Point.add, apply_ite Point.row, apply_ite Point.col,
    gt_iff_lt, Nat.zero_lt_one, lt_self_iff_false, if_true, if_false,
    Nat.zero_add, Nat.add_zero, ite_self, TextSummary.mk.injEq, Point.mk.injEq]
  refine ⟨?_, ?_, ?_, ?_, ?_⟩ <;>
    ((try split_ifs) <;> (try simp only [Point.mk.injEq, and_true, true_and]) <;> omega)
/-- Associativity of summary concatenation when the left operand summarizes a
single character and the other operands are text-generated. -/
theorem TextSummary.char_add_assoc (x : Char) {u v : TextSummary}
    (hu : u.good = true) (hv : v.good = true) :
    ((charSummary x).add u).add v = (charSummary x).add (u.add v) := by
  unfold charSummary
  split_ifs with h
  · exact TextSummary.nl_add_assoc hu hv
  · exact TextSummary.col_add_assoc hu hv

theorem TextSummary.zero_add {b : TextSummary} (hb : b.good = true) :
    TextSummary.zero.add b = b := by
  obtain ⟨bby, bch, ⟨bR, bC⟩, bf, ⟨brR, brC⟩⟩ := b
  rw [TextSummary.good_mk_iff] at hb
  obtain ⟨b1, b2, b3, b4, b5, b6⟩ := hb
  simp only [TextSummary.add, TextSummary.zero, Point.add, Point.zero,
    apply_ite Point.row, apply_ite Point.col, gt_iff_lt, Nat.zero_add,
    Nat.add_zero, ite_self, TextSummary.mk.injEq, Point.mk.injEq]
  refine ⟨?_, ?_, ?_, ?_, ?_⟩ <;>
    ((try split_ifs) <;> (try simp only [Point.mk.injEq, and_true, true_and]) <;> omega)
theorem TextSummary.add_zero {a : TextSummary} (ha : a.good = true) :
    a.add TextSummary.zero = a := by
  obtain ⟨aby, ach, ⟨aR, aC⟩, af, ⟨arR, arC⟩⟩ := a
  rw [TextSummary.good_mk_iff] at ha
  obtain ⟨a1, a2, a3, a4, a5, a6⟩ := ha
  simp only [TextSummary.add, TextSummary.zero, Point.add, Point.zero,
    apply_ite Point.row, apply_ite Point.col, gt_iff_lt, Nat.zero_add,
    Nat.add_zero, ite_self, TextSummary.mk.injEq, Point.mk.injEq]
  refine ⟨?_, ?_, ?_, ?_, ?_⟩ <;>
    ((try split_ifs) <;> (try simp only [Point.mk.injEq, and_true, true_and]) <;> omega)
theorem charSummary_good (c : Char) : (charSummary c).good = true := by
  rw [TextSummary.good_iff]
  unfold charSummary
  split_ifs <;> simp [Point.zero]

theorem textSummary_good (l : List Char) : (textSummary l).good = true := by
  induction l with
  | nil => decide
  | cons c t ih => exact TextSummary.good_add (charSummary_good c) ih

theorem textSummary_cons (c : Char) (t : List Char) :
    textSummary (c :: t) = (charSummary c).add (textSummary t) := rfl

theorem textSummary_append (s t : List Char) :
    textSummary (s ++ t) = (textSummary s).add (textSummary t) := by
  induction s with
  | nil => exact (TextSummary.zero_add (textSummary_good t)).symm
  | cons c s ih =>
    rw [List.cons_append, textSummary_cons, ih, textSummary_cons,
      TextSummary.char_add_assoc c (textSummary_good s) (textSummary_good t)]


theorem textSummaryForRange_good (B : Buffer) (a b : Nat) :
    (textSummaryForRange B a b).good = true := textSummary_good _

theorem bufferSlice_append (B : Buffer) (a b c : Nat) (hab : a ≤ b) (hbc : b ≤ c) :
    bufferSlice B a b ++ bufferSlice B b c = bufferSlice B a c := by
  unfold bufferSlice
  have hd : B.drop b = (B.drop a).drop (b - a) := by
    rw [List.drop_drop]
    congr 1
    omega
  rw [hd, ← List.take_add]
  congr 1
  omega

theorem textSummaryForRange_split (B : Buffer) (a b c : Nat) (hab : a ≤ b)
    (hbc : b ≤ c) :
    (textSummaryForRange B a b).add (textSummaryForRange B b c) =
      textSummaryForRange B a c := by
  unfold textSummaryForRange
  show (textSummary (bufferSlice B a b)).add (textSummary (bufferSlice B b c)) = _
  rw [← textSummary_append, bufferSlice_append B a b c hab hbc]
  rfl

theorem Point.blt_iff {a b : Point} :
    a.blt b = true ↔ (a.row < b.row ∨ (a.row = b.row ∧ a.col < b.col)) := by
  simp [Point.blt]

theorem Point.not_ble {a b : Point} : a.ble b = false ↔ b.blt a = true := by
  rw [Point.blt_iff]
  rw [show (a.ble b = false) ↔ ¬(a.ble b = true) by simp]
  rw [Point.ble_iff]
  omega

theorem Point.ble_trans {a b c : Point} (h1 : a.ble b = true) (h2 : b.ble c = true) :
    a.ble c = true := by
  rw [Point.ble_iff] at h1 h2 ⊢
  omega

theorem Point.add_sub_cancel (x y : Point) : (x.add y).sub x = y := by
  obtain ⟨xr, xc⟩ := x
  obtain ⟨yr, yc⟩ := y
  unfold Point.add Point.sub
  split_ifs <;> simp_all [Point.mk.injEq] <;> omega

theorem Point.ble_add_right (x y : Point) : x.ble (x.add y) = true := by
  unfold Point.add
  rw [Point.ble_iff]
  split_ifs <;> simp <;> omega

theorem Point.add_ble_add_left {y1 y2 : Point} (x : Point) (h : y1.ble y2 = true) :
    (x.add y1).ble (x.add y2) = true := by
  rw [Point.ble_iff] at h
  unfold Point.add
  rw [Point.ble_iff]
  split_ifs <;> simp <;> omega

theorem Point.add_blt_add_left {y1 y2 : Point} (x : Point) (h : y1.blt y2 = true) :
    (x.add y1).blt (x.add y2) = true := by
  rw [Point.blt_iff] at h
  unfold Point.add
  rw [Point.blt_iff]
  split_ifs <;> simp <;> omega

theorem Point.min_eq_left {a b : Point} (h : a.ble b = true) : a.min b = a := by
  unfold Point.min
  rw [h]
  rfl

theorem Point.lines_ne_zero_of_ne_nil (l : List Char) (h : l ≠ []) :
    ¬(textSummary l).lines = Point.zero := by
  cases l with
  | nil => exact absurd rfl h
  | cons c t =>
    rw [textSummary_cons, TextSummary.add_lines]
    unfold charSummary
    split_ifs with hc <;>
      (simp only [Point.add, Point.zero]
       split_ifs <;> simp [Point.mk.injEq] <;> omega)

theorem Point.blt_add_right (x : Point) {y : Point} (h : ¬y = Point.zero) :
    x.blt (x.add y) = true := by
  unfold Point.add
  rw [Point.blt_iff]
  have : ¬(y.row = 0 ∧ y.col = 0) := by
    intro hz
    exact h (by cases y; simp_all [Point.zero])
  split_ifs <;> simp <;> omega

theorem List.take_split (B : List Char) (a b : Nat) (hab : a ≤ b) :
    B.take b = B.take a ++ bufferSlice B a b := by
  unfold bufferSlice
  rw [← List.take_add B a (b - a)]
  congr 1
  omega

theorem offsetToPoint_split (B : Buffer) (a b : Nat) (hab : a ≤ b) :
    offsetToPoint B b =
      (offsetToPoint B a).add (textSummary (bufferSlice B a b)).lines := by
  unfold offsetToPoint
  rw [List.take_split B a b hab, textSummary_append, TextSummary.add_lines]

theorem bufferSlice_ne_nil (B : Buffer) (a b : Nat) (hab : a < b)
    (hb : b ≤ B.length) : bufferSlice B a b ≠ [] := by
  unfold bufferSlice
  intro h
  have := congrArg List.length h
  rw [List.length_take, List.length_drop] at this
  simp at this
  omega

theorem offsetToPoint_strict_mono (B : Buffer) (a b : Nat) (hab : a < b)
    (hb : b ≤ B.length) : (offsetToPoint B a).blt (offsetToPoint B b) = true := by
  rw [offsetToPoint_split B a b (Nat.le_of_lt hab)]
  exact Point.blt_add_right _
    (Point.lines_ne_zero_of_ne_nil _ (bufferSlice_ne_nil B a b hab hb))

theorem offsetToPoint_mono (B : Buffer) (a b : Nat) (hab : a ≤ b) :
    (offsetToPoint B a).ble (offsetToPoint B b) = true := by
  rw [offsetToPoint_split B a b hab]
  exact Point.ble_add_right _ _

theorem offsetToPoint_ble_iff (B : Buffer) (a b : Nat) (ha : a ≤ B.length)
    (hb : b ≤ B.length) :
    (offsetToPoint B a).ble (offsetToPoint B b) = true ↔ a ≤ b := by
  constructor
  · intro h
    by_contra hab
    have hlt := offsetToPoint_strict_mono B b a (by omega) ha
    rw [Point.ble_iff] at h
    rw [Point.blt_iff] at hlt
    omega
  · exact offsetToPoint_mono B a b

theorem textSummary_chars (l : List Char) : (textSummary l).chars = l.length := by
  induction l with
  | nil => rfl
  | cons c t ih =>
    rw [textSummary_cons, TextSummary.add_chars, ih]
    unfold charSummary
    split_ifs <;> (simp; try omega)

theorem textSummaryForRange_chars (B : Buffer) (a b : Nat) (ha : a ≤ b)
    (hb : b ≤ B.length) : (textSummaryForRange B a b).chars = b - a := by
  unfold textSummaryForRange
  rw [show textSummary ((B.drop a).take (b - a)) =
    textSummary (bufferSlice B a b) from rfl]
  rw [textSummary_chars]
  unfold bufferSlice
  rw [List.length_take, List.length_drop]
  omega

theorem tilesFromB_nil_iff {B : Buffer} {o : Nat} :
    tilesFromB B o [] = true ↔ o = B.length := by
  simp [tilesFromB]

theorem tilesFromB_cons_iff {B : Buffer} {o : Nat} {t : Transform}
    {ts : List Transform} :
    tilesFromB B o (t :: ts) = true ↔
      (t.summary.buffer = textSummaryForRange B o (o + t.summary.buffer.chars) ∧
        tilesFromB B (o + t.summary.buffer.chars) ts = true) := by
  simp [tilesFromB]

theorem tiles_le_length {B : Buffer} :
    ∀ {ts : List Transform} {o : Nat}, tilesFromB B o ts = true → o ≤ B.length
  | [], o, h => Nat.le_of_eq (tilesFromB_nil_iff.mp h)
  | _ :: ts, o, h => by
    have h2 := (tilesFromB_cons_iff.mp h).2
    have := @tiles_le_length B ts _ h2
    omega

theorem foldSpans_cons (o : Nat) (t : Transform) (ts : List Transform) :
    foldSpans o (t :: ts) =
      if t.display_text.isSome then
        (o, o + t.summary.buffer.chars) :: foldSpans (o + t.summary.buffer.chars) ts
      else foldSpans (o + t.summary.buffer.chars) ts := rfl

theorem transformShapeB_fold {t : Transform} (h : transformShapeB t = true)
    {c : Char} (hc : t.display_text = some c) :
    c = '…' ∧ t.summary.display = ellipsisSummary ∧ 0 < t.summary.buffer.chars := by
  unfold transformShapeB at h
  rw [hc] at h
  simp only [Bool.and_eq_true, decide_eq_true_eq] at h
  tauto

theorem transformShapeB_pass {t : Transform} (h : transformShapeB t = true)
    (hc : t.display_text = none) : t.summary.display = t.summary.buffer := by
  unfold transformShapeB at h
  rw [hc] at h
  simpa using h

theorem seekRight_cons (dimLe : TransformSummary → Bool) (t : Transform)
    (ts : List Transform) (acc : TransformSummary) :
    seekRight dimLe (t :: ts) acc =
      if dimLe (acc.add t.summary) then seekRight dimLe ts (acc.add t.summary)
      else (t :: ts, acc) := rfl

theorem seekRight_display_mono (dimLe : TransformSummary → Bool) :
    ∀ (ts : List Transform) (acc : TransformSummary),
      acc.display.lines.ble (seekRight dimLe ts acc).2.display.lines = true
  | [], acc => by
    show acc.display.lines.ble acc.display.lines = true
    rw [Point.ble_iff]
    omega
  | t :: ts, acc => by
    rw [seekRight_cons]
    split_ifs with h
    · have h1 : acc.display.lines.ble (acc.add t.summary).display.lines = true := by
        rw [TransformSummary.add_display, TextSummary.add_lines]
        exact Point.ble_add_right _ _
      exact Point.ble_trans h1 (seekRight_display_mono dimLe ts (acc.add t.summary))
    · show acc.display.lines.ble acc.display.lines = true
      rw [Point.ble_iff]
      omega

theorem Point.ble_refl (a : Point) : a.ble a = true := by
  rw [Point.ble_iff]
  omega

theorem Point.ble_min {a x y : Point} (hx : a.ble x = true) (hy : a.ble y = true) :
    a.ble (x.min y) = true := by
  unfold Point.min
  split_ifs <;> assumption

theorem Point.ble_eq_false {a b : Point} : a.ble b = false ↔ b.blt a = true :=
  Point.not_ble

theorem bufferSlice_self (B : Buffer) (a : Nat) : bufferSlice B a a = [] := by
  unfold bufferSlice
  simp

theorem textSummaryForRange_eq (B : Buffer) (a b : Nat) :
    textSummaryForRange B a b = textSummary (bufferSlice B a b) := rfl

theorem linesSlice_split (B : Buffer) (a o b : Nat) (h1 : a ≤ o) (h2 : o ≤ b) :
    (textSummary (bufferSlice B a b)).lines =
      ((textSummary (bufferSlice B a o)).lines).add
        (textSummary (bufferSlice B o b)).lines := by
  rw [← bufferSlice_append B a o b h1 h2, textSummary_append, TextSummary.add_lines]

theorem offsetToPoint_zero (B : Buffer) : offsetToPoint B 0 = Point.zero := rfl

/-- Core of the round-trip: from a tiled, well-shaped suffix of the transform
tree, translating a non-fold-interior buffer position to the display view and
back is the identity.  `c1`/`dp` name the buffer-point seek result and the
clamped display point of `to_display_point`. -/
theorem roundtrip_seek (B : Buffer) :
    ∀ (ts : List Transform) (acc : TransformSummary) (a o : Nat),
      tilesFromB B a ts = true →
      (∀ t ∈ ts, transformShapeB t = true) →
      acc.buffer.lines = offsetToPoint B a →
      a ≤ o → o ≤ B.length →
      (∀ se ∈ foldSpans a ts, ¬(se.1 < o ∧ o < se.2)) →
      ∀ (c1 : List Transform × TransformSummary),
        c1 = seekRight (fun s => s.buffer.lines.ble (offsetToPoint B o)) ts acc →
        ∀ (dp : Point),
          dp = Point.min
              (c1.2.display.lines.add ((offsetToPoint B o).sub c1.2.buffer.lines))
              (match c1.1 with
                | [] => c1.2.display.lines
                | t :: _ => (c1.2.add t.summary).display.lines) →
          (seekRight (fun s => s.display.lines.ble dp) ts acc).2.buffer.lines.add
              (dp.sub (seekRight (fun s => s.display.lines.ble dp) ts acc).2.display.lines)
            = offsetToPoint B o
  | [], acc, a, o, htiles, _, haccB, hao, hoN, _, c1, hc1, dp, hdp => by
    have haN : a = B.length := tilesFromB_nil_iff.mp htiles
    have hoa : o = a := by omega
    subst hoa
    have hc1' : c1 = ([], acc) := hc1
    rw [hc1'] at hdp
    have hsub : (offsetToPoint B o).sub acc.buffer.lines = Point.zero := by
      rw [haccB, Point.sub_self]
    simp only [hsub] at hdp
    rw [Point.add_zero_right] at hdp
    have hdp' : dp = acc.display.lines := by
      rw [hdp]
      exact Point.min_eq_left (Point.ble_refl _)
    show acc.buffer.lines.add (dp.sub acc.display.lines) = offsetToPoint B o
    rw [hdp', Point.sub_self, Point.add_zero_right, haccB]
  | t :: ts, acc, a, o, htiles, hshapes, haccB, hao, hoN, hnf, c1, hc1, dp, hdp => by
    obtain ⟨ht, htiles'⟩ := tilesFromB_cons_iff.mp htiles
    have hbN : a + t.summary.buffer.chars ≤ B.length := tiles_le_length htiles'
    have hlin : t.summary.buffer.lines =
        (textSummary (bufferSlice B a (a + t.summary.buffer.chars))).lines := by
      conv_lhs => rw [ht]
      rfl
    have hblines : (acc.add t.summary).buffer.lines =
        offsetToPoint B (a + t.summary.buffer.chars) := by
      rw [TransformSummary.add_buffer, TextSummary.add_lines, haccB, hlin]
      exact (offsetToPoint_split B a _ (by omega)).symm
    by_cases hcond : (acc.add t.summary).buffer.lines.ble (offsetToPoint B o) = true
    · -- the buffer seek skips `t`; so does the display seek
      have hbo : a + t.summary.buffer.chars ≤ o := by
        rw [hblines] at hcond
        exact (offsetToPoint_ble_iff B _ o hbN hoN).mp hcond
      have hc1' : c1 =
          seekRight (fun s => s.buffer.lines.ble (offsetToPoint B o)) ts
            (acc.add t.summary) := by
        rw [hc1, seekRight_cons, if_pos hcond]
      have ih := roundtrip_seek B ts (acc.add t.summary)
        (a + t.summary.buffer.chars) o htiles'
        (fun u hu => hshapes u (List.mem_cons_of_mem _ hu)) hblines hbo hoN
        (by
          intro se hse
          apply hnf
          rw [foldSpans_cons]
          split_ifs <;> simp [hse])
        c1 hc1' dp hdp
      have hcond2 : (acc.add t.summary).display.lines.ble dp = true := by
        have g1 : (acc.add t.summary).display.lines.ble c1.2.display.lines = true := by
          rw [hc1']
          exact seekRight_display_mono _ ts (acc.add t.summary)
        have g2 : c1.2.display.lines.ble dp = true := by
          rw [hdp]
          apply Point.ble_min
          · exact Point.ble_add_right _ _
          · cases hm : c1.1 with
            | nil => exact Point.ble_refl _
            | cons u rest => exact Point.ble_add_right _ _
        exact Point.ble_trans g1 g2
      rw [seekRight_cons, if_pos hcond2]
      exact ih
    · -- the buffer seek stops at `t`
      have hcond' : (acc.add t.summary).buffer.lines.ble (offsetToPoint B o) = false := by
        simp only [Bool.not_eq_true] at hcond
        exact hcond
      have hob : o < a + t.summary.buffer.chars := by
        by_contra hx
        rw [hblines] at hcond'
        have := (offsetToPoint_ble_iff B _ o hbN hoN).mpr (by omega)
        rw [this] at hcond'
        exact absurd hcond' (by simp)
      have hc1' : c1 = (t :: ts, acc) := by
        rw [hc1, seekRight_cons, if_neg (by simp [hcond'])]
      rw [hc1'] at hdp
      have hr : offsetToPoint B o =
          (offsetToPoint B a).add (textSummary (bufferSlice B a o)).lines :=
        offsetToPoint_split B a o hao
      have hsub : (offsetToPoint B o).sub acc.buffer.lines =
          (textSummary (bufferSlice B a o)).lines := by
        rw [haccB, hr, Point.add_sub_cancel]
      cases hdt : t.display_text with
      | some c =>
        -- a fold transform: `o` must be its start
        obtain ⟨_, hell, hpos⟩ := transformShapeB_fold (hshapes t (List.mem_cons_self t ts)) hdt
        have h9 := hnf (a, a + t.summary.buffer.chars) (by
          rw [foldSpans_cons, hdt]
          simp)
        dsimp only at h9
        have hoa : o = a := by omega
        subst hoa
        rw [bufferSlice_self] at hsub
        have hsub' : (offsetToPoint B o).sub acc.buffer.lines = Point.zero := hsub
        simp only [hsub'] at hdp
        rw [Point.add_zero_right] at hdp
        have hlt : acc.display.lines.blt (acc.add t.summary).display.lines = true := by
          rw [TransformSummary.add_display, TextSummary.add_lines, hell]
          apply Point.blt_add_right
          intro hz
          have : (1 : Nat) = 0 := congrArg Point.col hz
          omega
        have hdp' : dp = acc.display.lines := by
          rw [hdp]
          apply Point.min_eq_left
          rw [Point.ble_iff]
          rw [Point.blt_iff] at hlt
          omega
        have hcond2 : (acc.add t.summary).display.lines.ble dp = false := by
          rw [hdp', Point.ble_eq_false]
          exact hlt
        rw [seekRight_cons, if_neg (by simp [hcond2])]
        show acc.buffer.lines.add (dp.sub acc.display.lines) = offsetToPoint B o
        rw [hdp', Point.sub_self, Point.add_zero_right, haccB]
      | none =>
        -- a passthrough transform
        have hpass := transformShapeB_pass (hshapes t (List.mem_cons_self t ts)) hdt
        have hlines_split : t.summary.display.lines =
            ((textSummary (bufferSlice B a o)).lines).add
              (textSummary (bufferSlice B o (a + t.summary.buffer.chars))).lines := by
          conv_lhs => rw [hpass, ht]
          exact linesSlice_split B a o _ hao (by omega)
        have hne : ¬(textSummary (bufferSlice B o (a + t.summary.buffer.chars))).lines
            = Point.zero :=
          Point.lines_ne_zero_of_ne_nil _ (bufferSlice_ne_nil B o _ hob hbN)
        have hstrict : ((textSummary (bufferSlice B a o)).lines).blt
            t.summary.display.lines = true := by
          rw [hlines_split]
          exact Point.blt_add_right _ hne
        simp only [hsub] at hdp
        have hdp' : dp = acc.display.lines.add (textSummary (bufferSlice B a o)).lines := by
          rw [hdp]
          apply Point.min_eq_left
          rw [TransformSummary.add_display, TextSummary.add_lines]
          apply Point.add_ble_add_left
          rw [Point.ble_iff]
          rw [Point.blt_iff] at hstrict
          omega
        have hcond2 : (acc.add t.summary).display.lines.ble dp = false := by
          rw [hdp', Point.ble_eq_false, TransformSummary.add_display,
            TextSummary.add_lines]
          exact Point.add_blt_add_left _ hstrict
        rw [seekRight_cons, if_neg (by simp [hcond2])]
        show acc.buffer.lines.add (dp.sub acc.display.lines) = offsetToPoint B o
        rw [hdp', Point.add_sub_cancel, haccB, hr]

/-- C9: for every buffer position not strictly interior to a fold span,
`to_buffer_point (to_display_point p)` is the identity, on any tiled and
well-shaped transform tree. -/
theorem toBufferPoint_toDisplayPoint_id (B : Buffer) (m : FoldMap)
    (hwf : transformsWF B m.transforms = true) (o : Nat) (hoN : o ≤ B.length)
    (hnf : ∀ se ∈ foldSpans 0 m.transforms, ¬(se.1 < o ∧ o < se.2)) :
    toBufferPoint m.transforms (toDisplayPoint m.transforms (offsetToPoint B o)) =
      offsetToPoint B o := by
  obtain ⟨htiles, hshape⟩ := by
    unfold transformsWF at hwf
    exact Bool.and_eq_true_iff.mp hwf
  have hshapes : ∀ t ∈ m.transforms, transformShapeB t = true := by
    intro t ht
    exact (List.all_eq_true.mp hshape) t ht
  exact roundtrip_seek B m.transforms TransformSummary.zero 0 o htiles hshapes rfl
    (Nat.zero_le o) hoN hnf
    (seekBufferPoint m.transforms (offsetToPoint B o)) rfl
    (toDisplayPoint m.transforms (offsetToPoint B o)) rfl

/-- Witness for C9 at a concrete folded map and offset. -/
theorem toBufferPoint_toDisplayPoint_id_witness :
    transformsWF sampleBuf sampleFolded.transforms = true ∧
    (∀ se ∈ foldSpans 0 sampleFolded.transforms, ¬(se.1 < 3 ∧ 3 < se.2)) ∧
    toBufferPoint sampleFolded.transforms
        (toDisplayPoint sampleFolded.transforms (offsetToPoint sampleBuf 3)) =
      offsetToPoint sampleBuf 3 :=
  ⟨by decide, by decide,
    toBufferPoint_toDisplayPoint_id sampleBuf sampleFolded (by decide) 3 (by decide)
      (by decide)⟩

theorem charsNextAux_some (B : Buffer) (f : Nat) (rest : List Transform)
    (acc : TransformSummary) (off : Nat) (c : Char) (cs : List Char) :
    charsNextAux B (f + 1) ⟨rest, acc, off, some (c :: cs)⟩ =
      some (c, ⟨rest, acc, off + 1, some cs⟩) := rfl

theorem charsNext_some (B : Buffer) (rest : List Transform)
    (acc : TransformSummary) (off : Nat) (c : Char) (cs : List Char) :
    charsNext B ⟨rest, acc, off, some (c :: cs)⟩ =
      some (c, ⟨rest, acc, off + 1, some cs⟩) := rfl

theorem charsCollect_succ (B : Buffer) (fuel : Nat) (s : CharsState) :
    charsCollect B (fuel + 1) s =
      match charsNext B s with
      | none => []
      | some (c, s') => c :: charsCollect B fuel s' := rfl

/-- Draining a live buffer sub-iterator yields its characters one by one. -/
theorem charsCollect_drain (B : Buffer) :
    ∀ (l : List Char) (fuel : Nat) (rest : List Transform) (acc : TransformSummary)
      (off : Nat),
      charsCollect B (l.length + fuel) ⟨rest, acc, off, some l⟩ =
        l ++ charsCollect B fuel ⟨rest, acc, off + l.length, some []⟩
  | [], fuel, rest, acc, off => by simp
  | c :: cs, fuel, rest, acc, off => by
    show charsCollect B (cs.length + 1 + fuel) _ = _
    have hf : cs.length + 1 + fuel = (cs.length + fuel) + 1 := by omega
    rw [hf, charsCollect_succ B, charsNext_some]
    show c :: charsCollect B (cs.length + fuel) ⟨rest, acc, off + 1, some cs⟩ = _
    rw [charsCollect_drain B cs fuel rest acc (off + 1)]
    have ho : off + 1 + cs.length = off + (cs.length + 1) := by omega
    simp [ho]

/-- A cursor with no remaining transform yields nothing. -/
theorem charsNext_nil (B : Buffer) (acc : TransformSummary) (off : Nat)
    (bc : Option (List Char)) (hbc : bc = none ∨ bc = some []) :
    charsNext B ⟨[], acc, off, bc⟩ = none := by
  rcases hbc with h | h <;> subst h <;>
    (unfold charsNext charsNextAux
     simp only []
     split_ifs <;> rfl)

/-- Stepping on a fresh fold transform yields its ellipsis. -/
theorem charsNext_fold_fresh (B : Buffer) (t : Transform) (rest : List Transform)
    (acc : TransformSummary) (bc : Option (List Char))
    (hbc : bc = none ∨ bc = some []) (c : Char) (hdt : t.display_text = some c)
    (hpos : 0 < t.summary.display.chars) :
    charsNext B ⟨t :: rest, acc, acc.display.chars, bc⟩ =
      some (c, ⟨t :: rest, acc, acc.display.chars + 1, bc⟩) := by
  have hne : ¬acc.display.chars =
      cursorEndChars ⟨t :: rest, acc, acc.display.chars, bc⟩ := by
    show ¬acc.display.chars = (acc.add t.summary).display.chars
    rw [TransformSummary.add_display, TextSummary.add_chars]
    omega
  rcases hbc with h | h <;> subst h <;>
    (unfold charsNext charsNextAux
     simp only [if_neg hne, hdt])

/-- Stepping just past a consumed transform advances the cursor; a fold next
yields its ellipsis. -/
theorem charsNext_fold_next (B : Buffer) (t u : Transform) (rest : List Transform)
    (acc : TransformSummary) (bc : Option (List Char))
    (hbc : bc = none ∨ bc = some []) (c : Char) (hdt : u.display_text = some c) :
    charsNext B ⟨t :: (u :: rest), acc, (acc.add t.summary).display.chars, bc⟩ =
      some (c, ⟨u :: rest, acc.add t.summary,
        (acc.add t.summary).display.chars + 1, bc⟩) := by
  have heq : (acc.add t.summary).display.chars =
      cursorEndChars ⟨t :: (u :: rest), acc, (acc.add t.summary).display.chars, bc⟩ := rfl
  rcases hbc with h | h <;> subst h <;>
    (unfold charsNext charsNextAux
     simp only [if_pos heq, hdt])

/-- Stepping just past the final transform finds no item. -/
theorem charsNext_last (B : Buffer) (t : Transform) (acc : TransformSummary)
    (bc : Option (List Char)) (hbc : bc = none ∨ bc = some []) :
    charsNext B ⟨[t], acc, (acc.add t.summary).display.chars, bc⟩ = none := by
  have heq : (acc.add t.summary).display.chars =
      cursorEndChars ⟨[t], acc, (acc.add t.summary).display.chars, bc⟩ := rfl
  rcases hbc with h | h <;> subst h <;>
    (unfold charsNext charsNextAux
     simp only [if_pos heq])

/-- Stepping on a fresh passthrough installs its buffer slice and yields the
slice's first character. -/
theorem charsNext_pass_fresh (B : Buffer) (t : Transform) (rest : List Transform)
    (acc : TransformSummary) (bc : Option (List Char))
    (hbc : bc = none ∨ bc = some []) (hdt : t.display_text = none)
    (hpos : 0 < t.summary.display.chars) (c : Char) (cs : List Char)
    (hl : bufferSlice B acc.buffer.chars
        (acc.buffer.chars + t.summary.buffer.chars) = c :: cs) :
    charsNext B ⟨t :: rest, acc, acc.display.chars, bc⟩ =
      some (c, ⟨t :: rest, acc, acc.display.chars + 1, some cs⟩) := by
  have hne : ¬acc.display.chars =
      cursorEndChars ⟨t :: rest, acc, acc.display.chars, bc⟩ := by
    show ¬acc.display.chars = (acc.add t.summary).display.chars
    rw [TransformSummary.add_display, TextSummary.add_chars]
    omega
  rcases hbc with h | h <;> subst h <;>
    (unfold charsNext charsNextAux
     simp only [if_neg hne, hdt, Nat.sub_self, Nat.add_zero,
       TransformSummary.add_buffer, TextSummary.add_chars,
       Nat.add_sub_cancel_left, hl]
     rw [charsNextAux_some])

/-- Stepping just past a consumed transform advances the cursor; a passthrough
next installs its slice and yields the first character. -/
theorem charsNext_pass_next (B : Buffer) (t u : Transform) (rest : List Transform)
    (acc : TransformSummary) (bc : Option (List Char))
    (hbc : bc = none ∨ bc = some []) (hdt : u.display_text = none)
    (c : Char) (cs : List Char)
    (hl : bufferSlice B (acc.add t.summary).buffer.chars
        ((acc.add t.summary).buffer.chars + u.summary.buffer.chars) = c :: cs) :
    charsNext B ⟨t :: (u :: rest), acc, (acc.add t.summary).display.chars, bc⟩ =
      some (c, ⟨u :: rest, acc.add t.summary,
        (acc.add t.summary).display.chars + 1, some cs⟩) := by
  have heq : (acc.add t.summary).display.chars =
      cursorEndChars ⟨t :: (u :: rest), acc,
        (acc.add t.summary).display.chars, bc⟩ := rfl
  simp only [TransformSummary.add_buffer, TextSummary.add_chars] at hl
  rcases hbc with h | h <;> subst h <;>
    (unfold charsNext charsNextAux
     simp only [if_pos heq, hdt, Nat.sub_self, Nat.add_zero,
       TransformSummary.add_buffer, TextSummary.add_chars,
       Nat.add_sub_cancel_left, hl]
     rw [charsNextAux_some])

/-- From any transform-boundary cursor state the iterator yields exactly the
rendering of the remaining transforms: each fold one ellipsis, each
passthrough its buffer slice. -/
theorem charsCollect_render (B : Buffer) :
    ∀ (ts : List Transform) (acc : TransformSummary) (b : Nat)
      (s : CharsState) (fuel : Nat),
      tilesFromB B b ts = true →
      (∀ t ∈ ts, transformShapeB t = true) →
      (∀ t ∈ ts, 0 < t.summary.display.chars) →
      acc.buffer.chars = b →
      s.offset = acc.display.chars →
      (s.buffer_chars = none ∨ s.buffer_chars = some []) →
      (s.rest = ts ∧ s.startSum = acc ∨
        ∃ t acc0, s.rest = t :: ts ∧ s.startSum = acc0 ∧
          acc = acc0.add t.summary) →
      (sumSummary ts).display.chars + 1 ≤ fuel →
      charsCollect B fuel s = renderTransforms B b ts := by
  intro ts
  induction ts with
  | nil =>
    intro acc b s fuel htiles hshape hpos hacc hoff hbc hrest hfuel
    obtain ⟨rest, ssum, off, bc⟩ := s
    dsimp only at hoff hbc hrest
    obtain ⟨f, rfl⟩ : ∃ f, fuel = f + 1 := ⟨fuel - 1, by omega⟩
    rw [charsCollect_succ]
    rcases hrest with ⟨h1r, h2r⟩ | ⟨t, acc0, h1r, h2r, h3r⟩
    · rw [h1r, charsNext_nil B ssum off bc hbc]
      rfl
    · rw [h1r, hoff, h3r, h2r, charsNext_last B t acc0 bc hbc]
      rfl
  | cons t' ts'' ih =>
    intro acc b s fuel htiles hshape hpos hacc hoff hbc hrest hfuel
    obtain ⟨rest, ssum, off, bc⟩ := s
    dsimp only at hoff hbc hrest
    simp only [tilesFromB, Bool.and_eq_true, decide_eq_true_eq] at htiles
    obtain ⟨htb, htiles2⟩ := htiles
    have hlen : (bufferSlice B b (b + t'.summary.buffer.chars)).length
        = t'.summary.buffer.chars := by
      have hch := congrArg TextSummary.chars htb
      have h2 : (textSummaryForRange B b (b + t'.summary.buffer.chars)).chars
          = (bufferSlice B b (b + t'.summary.buffer.chars)).length :=
        textSummary_chars _
      omega
    have hfuel2 := hfuel
    simp only [sumSummary_cons, TransformSummary.add_display,
      TextSummary.add_chars] at hfuel2
    obtain ⟨f, rfl⟩ : ∃ f, fuel = f + 1 := ⟨fuel - 1, by omega⟩
    cases hdt : t'.display_text with
    | some c =>
      have hsh := hshape t' (List.mem_cons_self _ _)
      simp only [transformShapeB, hdt, Bool.and_eq_true, decide_eq_true_eq] at hsh
      obtain ⟨⟨hc, hdisp⟩, hpb⟩ := hsh
      have hd1 : t'.summary.display.chars = 1 := by rw [hdisp]; rfl
      have hnext : charsNext B ⟨rest, ssum, off, bc⟩ =
          some (c, ⟨t' :: ts'', acc, acc.display.chars + 1, bc⟩) := by
        rcases hrest with ⟨h1r, h2r⟩ | ⟨u, acc0, h1r, h2r, h3r⟩
        · rw [h1r, h2r, hoff]
          exact charsNext_fold_fresh B t' ts'' acc bc hbc c hdt (by omega)
        · rw [h1r, hoff, h3r, h2r]
          exact charsNext_fold_next B u t' ts'' acc0 bc hbc c hdt
      rw [charsCollect_succ, hnext]
      show c :: charsCollect B f ⟨t' :: ts'', acc, acc.display.chars + 1, bc⟩ = _
      have hrec := ih (acc.add t'.summary) (b + t'.summary.buffer.chars)
        ⟨t' :: ts'', acc, acc.display.chars + 1, bc⟩ f htiles2
        (fun u hu => hshape u (List.mem_cons_of_mem _ hu))
        (fun u hu => hpos u (List.mem_cons_of_mem _ hu))
        (by simp only [TransformSummary.add_buffer, TextSummary.add_chars, hacc])
        (by simp only [TransformSummary.add_display, TextSummary.add_chars, hd1])
        hbc
        (Or.inr ⟨t', acc, rfl, rfl, rfl⟩)
        (by omega)
      rw [hrec]
      simp [renderTransforms, hdt, hc]
    | none =>
      have hsh := hshape t' (List.mem_cons_self _ _)
      simp only [transformShapeB, hdt, decide_eq_true_eq] at hsh
      have hdpos := hpos t' (List.mem_cons_self _ _)
      have hdc := congrArg TextSummary.chars hsh
      have hcnt : 0 < t'.summary.buffer.chars := by omega
      obtain ⟨c, cs, hl⟩ : ∃ c cs,
          bufferSlice B b (b + t'.summary.buffer.chars) = c :: cs := by
        cases hsl : bufferSlice B b (b + t'.summary.buffer.chars) with
        | nil => rw [hsl] at hlen; simp at hlen; omega
        | cons c cs => exact ⟨c, cs, rfl⟩
      have hcs : cs.length + 1 = t'.summary.buffer.chars := by
        rw [hl] at hlen
        simpa using hlen
      have hnext : charsNext B ⟨rest, ssum, off, bc⟩ =
          some (c, ⟨t' :: ts'', acc, acc.display.chars + 1, some cs⟩) := by
        rcases hrest with ⟨h1r, h2r⟩ | ⟨u, acc0, h1r, h2r, h3r⟩
        · rw [h1r, h2r, hoff]
          refine charsNext_pass_fresh B t' ts'' acc bc hbc hdt hdpos c cs ?_
          rw [hacc]
          exact hl
        · rw [h1r, hoff, h3r, h2r]
          refine charsNext_pass_next B u t' ts'' acc0 bc hbc hdt c cs ?_
          rw [← h3r, hacc]
          exact hl
      rw [charsCollect_succ, hnext]
      show c :: charsCollect B f ⟨t' :: ts'', acc, acc.display.chars + 1, some cs⟩ = _
      obtain ⟨f2, rfl⟩ : ∃ f2, f = cs.length + f2 := ⟨f - cs.length, by omega⟩
      rw [charsCollect_drain B cs f2 (t' :: ts'') acc (acc.display.chars + 1)]
      have hrec := ih (acc.add t'.summary) (b + t'.summary.buffer.chars)
        ⟨t' :: ts'', acc, acc.display.chars + 1 + cs.length, some []⟩ f2 htiles2
        (fun u hu => hshape u (List.mem_cons_of_mem _ hu))
        (fun u hu => hpos u (List.mem_cons_of_mem _ hu))
        (by simp only [TransformSummary.add_buffer, TextSummary.add_chars, hacc])
        (by simp only [TransformSummary.add_display, TextSummary.add_chars]
            omega)
        (Or.inr rfl)
        (Or.inr ⟨t', acc, rfl, rfl, rfl⟩)
        (by omega)
      rw [hrec]
      simp [renderTransforms, hdt, hl]

theorem Point.zero_add_eq (p : Point) : Point.zero.add p = p := by
  obtain ⟨r, c⟩ := p
  simp only [Point.add, Point.zero]
  split_ifs with h <;> simp_all <;> omega

theorem List.drop_split (B : List Char) (a b : Nat) (hab : a ≤ b) :
    B.drop a = bufferSlice B a b ++ B.drop b := by
  unfold bufferSlice
  have hd : B.drop b = (B.drop a).drop (b - a) := by
    rw [List.drop_drop]
    congr 1
    omega
  rw [hd, List.take_append_drop]

/-- Every span produced from buffer offset `o` starts at or after `o`. -/
theorem foldSpans_lb : ∀ (ts : List Transform) (o : Nat),
    ∀ p ∈ foldSpans o ts, o ≤ p.1
  | [], o => by intro p hp; cases hp
  | t :: ts, o => by
    intro p hp
    unfold foldSpans at hp
    cases hdt : t.display_text with
    | some c =>
      rw [hdt] at hp
      simp only [Option.isSome_some, if_true, List.mem_cons] at hp
      rcases hp with hp | hp
      · subst hp; exact Nat.le_refl o
      · exact Nat.le_trans (Nat.le_add_right _ _) (foldSpans_lb ts _ p hp)
    | none =>
      rw [hdt] at hp
      simp only [Option.isSome_none, Bool.false_eq_true, if_false] at hp
      exact Nat.le_trans (Nat.le_add_right _ _) (foldSpans_lb ts _ p hp)

/-- Ellipsizing from an earlier offset prepends the intervening slice when
every span starts at or after the later offset. -/
theorem ellipsize_skip (B : Buffer) (a b : Nat) (hab : a ≤ b) :
    ∀ spans, (∀ p ∈ spans, b ≤ p.1) →
      ellipsize B a spans = bufferSlice B a b ++ ellipsize B b spans := by
  intro spans hb
  cases spans with
  | nil => exact List.drop_split B a b hab
  | cons p r =>
    obtain ⟨ps, pe⟩ := p
    show bufferSlice B a ps ++ _ = _
    rw [← bufferSlice_append B a b ps hab (hb (ps, pe) (List.mem_cons_self _ _)),
      List.append_assoc]
    rfl

/-- The transforms' rendering is the buffer ellipsized at the fold spans. -/
theorem renderTransforms_ellipsize (B : Buffer) :
    ∀ (ts : List Transform) (a : Nat), tilesFromB B a ts = true →
      (∀ t ∈ ts, transformShapeB t = true) →
      renderTransforms B a ts = ellipsize B a (foldSpans a ts)
  | [], a => by
    intro htiles hshape
    simp only [tilesFromB, decide_eq_true_eq] at htiles
    show ([] : List Char) = B.drop a
    rw [htiles, List.drop_length]
  | t :: ts, a => by
    intro htiles hshape
    simp only [tilesFromB, Bool.and_eq_true, decide_eq_true_eq] at htiles
    obtain ⟨htb, htiles2⟩ := htiles
    have hrec := renderTransforms_ellipsize B ts (a + t.summary.buffer.chars)
      htiles2 (fun u hu => hshape u (List.mem_cons_of_mem _ hu))
    cases hdt : t.display_text with
    | some c =>
      show (if (t.display_text).isSome then ['…']
          else bufferSlice B a (a + t.summary.buffer.chars)) ++
          renderTransforms B (a + t.summary.buffer.chars) ts = _
      rw [hdt]
      unfold foldSpans
      rw [hdt]
      simp only [Option.isSome_some, if_true]
      have hell : ellipsize B a ((a, a + t.summary.buffer.chars) ::
          foldSpans (a + t.summary.buffer.chars) ts) =
          bufferSlice B a a ++ '…' :: ellipsize B (a + t.summary.buffer.chars)
            (foldSpans (a + t.summary.buffer.chars) ts) := rfl
      rw [hell, bufferSlice_self, hrec]
      rfl
    | none =>
      show (if (t.display_text).isSome then ['…']
          else bufferSlice B a (a + t.summary.buffer.chars)) ++
          renderTransforms B (a + t.summary.buffer.chars) ts = _
      rw [hdt]
      unfold foldSpans
      rw [hdt]
      simp only [Option.isSome_none, Bool.false_eq_true, if_false]
      rw [hrec, ← ellipsize_skip B a (a + t.summary.buffer.chars)
        (Nat.le_add_right _ _) (foldSpans (a + t.summary.buffer.chars) ts)
        (foldSpans_lb ts (a + t.summary.buffer.chars))]

/-- A positive, well-shaped head transform has a nonzero display line extent. -/
theorem head_display_lines_ne_zero (B : Buffer) (t : Transform) (b : Nat)
    (htb : t.summary.buffer = textSummaryForRange B b (b + t.summary.buffer.chars))
    (hsh : transformShapeB t = true) (hp : 0 < t.summary.display.chars) :
    ¬t.summary.display.lines = Point.zero := by
  cases hdt : t.display_text with
  | some c =>
    simp only [transformShapeB, hdt, Bool.and_eq_true, decide_eq_true_eq] at hsh
    rw [hsh.1.2]
    intro h
    have := congrArg Point.col h
    simp [ellipsisSummary, Point.zero] at this
  | none =>
    simp only [transformShapeB, hdt, decide_eq_true_eq] at hsh
    rw [hsh, htb]
    refine Point.lines_ne_zero_of_ne_nil _ ?_
    intro hnil
    rw [hsh, htb] at hp
    have hp2 : 0 < ((B.drop b).take (b + t.summary.buffer.chars - b)).length := by
      have hch := textSummary_chars ((B.drop b).take (b + t.summary.buffer.chars - b))
      rw [← hch]
      exact hp
    rw [hnil] at hp2
    simp at hp2

/-- Seeking to the zero display point skips nothing over a positive tree. -/
theorem seekDisplayPoint_zero (B : Buffer) (ts : List Transform)
    (htiles : tilesFromB B 0 ts = true)
    (hshape : ∀ t ∈ ts, transformShapeB t = true)
    (hpos : ∀ t ∈ ts, 0 < t.summary.display.chars) :
    seekDisplayPoint ts Point.zero = (ts, TransformSummary.zero) := by
  cases ts with
  | nil => rfl
  | cons t ts' =>
    simp only [tilesFromB, Bool.and_eq_true, decide_eq_true_eq] at htiles
    have hne := head_display_lines_ne_zero B t 0 htiles.1
      (hshape t (List.mem_cons_self _ _)) (hpos t (List.mem_cons_self _ _))
    have hlines : (TransformSummary.zero.add t.summary).display.lines =
        t.summary.display.lines := by
      rw [TransformSummary.add_display, TextSummary.add_lines]
      exact Point.zero_add_eq _
    have hcond : ((TransformSummary.zero.add t.summary).display.lines.ble
        Point.zero) = false := by
      rw [hlines]
      cases hble : t.summary.display.lines.ble Point.zero with
      | false => rfl
      | true =>
        rw [Point.ble_iff] at hble
        have h0 : t.summary.display.lines.row < 0 ∨
            (t.summary.display.lines.row = 0 ∧
              t.summary.display.lines.col ≤ 0) := hble
        exact absurd (Point.ext'
          (show t.summary.display.lines.row = 0 by omega)
          (show t.summary.display.lines.col = 0 by omega)) hne
    show seekRight _ (t :: ts') TransformSummary.zero = _
    unfold seekRight
    simp only [hcond, Bool.false_eq_true, if_false]

/-- Seeking to display offset zero skips nothing over a positive tree. -/
theorem seekDisplayOffset_zero (ts : List Transform)
    (hpos : ∀ t ∈ ts, 0 < t.summary.display.chars) :
    seekDisplayOffset ts 0 = (ts, TransformSummary.zero) := by
  cases ts with
  | nil => rfl
  | cons t ts' =>
    have hp := hpos t (List.mem_cons_self _ _)
    have hcond : decide ((TransformSummary.zero.add t.summary).display.chars ≤ 0)
        = false := by
      rw [decide_eq_false_iff_not, TransformSummary.add_display,
        TextSummary.add_chars]
      omega
    show seekRight _ (t :: ts') TransformSummary.zero = _
    unfold seekRight
    simp only [hcond, Bool.false_eq_true, if_false]

/-- Over a well-formed positive tree, `displayText` succeeds and yields the
transforms' rendering. -/
theorem displayText_render (B : Buffer) (ts : List Transform)
    (htiles : tilesFromB B 0 ts = true)
    (hshape : ∀ t ∈ ts, transformShapeB t = true)
    (hpos : ∀ t ∈ ts, 0 < t.summary.display.chars) :
    displayText B ts = .ok (renderTransforms B 0 ts) := by
  have hseekP := seekDisplayPoint_zero B ts htiles hshape hpos
  have hseekO := seekDisplayOffset_zero ts hpos
  have hto : toDisplayOffset B ts Point.zero = .ok 0 := by
    unfold toDisplayOffset
    rw [hseekP]
    rfl
  unfold displayText charsAt
  rw [hto]
  show Except.ok (charsCollect B ((sumSummary ts).display.chars + 1)
    ⟨(seekDisplayOffset ts 0).1, (seekDisplayOffset ts 0).2, 0, none⟩) = _
  rw [hseekO]
  show Except.ok (charsCollect B ((sumSummary ts).display.chars + 1)
    ⟨ts, TransformSummary.zero, 0, none⟩) = _
  rw [charsCollect_render B ts TransformSummary.zero 0
    ⟨ts, TransformSummary.zero, 0, none⟩ ((sumSummary ts).display.chars + 1)
    htiles hshape hpos rfl rfl (Or.inl rfl) (Or.inl ⟨rfl, rfl⟩) (Nat.le_refl _)]

set_option maxRecDepth 8000 in
/-- C2: the coverage invariant `transforms.summary().buffer ==
buffer.text_summary()` is violated by the code on a reachable state:
after `fold([5..8])` then `fold([1..2, 2..5])` (both successful) the merged
fold `1..8` is emitted while the old `5..8` fold transform is appended again
from the cursor suffix, so the tree covers 13 characters of a 10-character
buffer. -/
theorem coverage_violated_after_successful_folds :
    bugFold1.2 = none ∧ bugFold2.2 = none ∧ Reachable bugBuf bugFold2.1 ∧
      ¬(sumSummary bugFold2.1.transforms).buffer = textSummary bugBuf := by
  refine ⟨by decide, by decide, ?_, by decide⟩
  exact Reachable.fold _ _ (Reachable.fold _ _ Reachable.new (by decide)) (by decide)

set_option maxRecDepth 8000 in
/-- C1: on the same reachable state the collected display text is not the
buffer ellipsized at the merged fold spans: the span `[5, 8)` is shown a
second time by the duplicated fold transform (and the trailing passthrough
points past the buffer end, where the code's `chars_at(11).unwrap()`
panics). -/
theorem display_not_ellipsized_on_reachable_state :
    Reachable bugBuf bugFold2.1 ∧
      ¬displayText bugBuf bugFold2.1.transforms =
        .ok (ellipsize bugBuf 0 bugFold2.1.mergedFoldRanges) := by
  refine ⟨?_, by decide⟩
  exact Reachable.fold _ _ (Reachable.fold _ _ Reachable.new (by decide)) (by decide)

set_option maxRecDepth 8000 in
/-- C7: `fold([9..10]); unfold([9..10])` on the same reachable state — a
range that abuts and intersects no fold — does not restore the display text:
the pair's rebuild collapses the corrupted tail, so the display differs from
the one before the pair. -/
theorem fold_unfold_not_inverse_on_reachable_state :
    Reachable bugBuf bugFold2.1 ∧
      (∀ f ∈ bugFold2.1.folds, f.2.toOffset < 9 ∨ 10 < f.1.toOffset) ∧
      bugFold3.2 = none ∧ bugUnfold4.2 = none ∧
      ¬displayText bugBuf bugUnfold4.1.transforms =
        displayText bugBuf bugFold2.1.transforms := by
  refine ⟨?_, by decide, by decide, by decide, by decide⟩
  exact Reachable.fold _ _ (Reachable.fold _ _ Reachable.new (by decide)) (by decide)

theorem seekRightChars_nil (pos target : Nat) :
    seekRightChars [] pos target = ([], pos) := rfl

theorem seekRightChars_stop (t : Transform) (ts : List Transform)
    (pos target : Nat) (h : ¬pos + t.summary.buffer.chars ≤ target) :
    seekRightChars (t :: ts) pos target = (t :: ts, pos) := by
  unfold seekRightChars
  rw [if_neg h]

theorem seekRightChars_skip (t : Transform) (ts : List Transform)
    (pos target : Nat) (h : pos + t.summary.buffer.chars ≤ target) :
    seekRightChars (t :: ts) pos target =
      seekRightChars ts (pos + t.summary.buffer.chars) target := by
  unfold seekRightChars
  rw [if_pos h]
  cases ts <;> rfl

theorem sliceLeftChars_stop (t : Transform) (ts : List Transform)
    (pos target : Nat) (h : ¬pos + t.summary.buffer.chars < target) :
    sliceLeftChars (t :: ts) pos target = ([], t :: ts, pos) := by
  unfold sliceLeftChars
  rw [if_neg h]

theorem passthrough_buffer_chars (x : TextSummary) :
    (passthrough x).summary.buffer.chars = x.chars := rfl

theorem int_mod_toNat (n : Nat) (h : n < 2 ^ 64) :
    (((n : Int) + 0) % (2 : Int) ^ 64).toNat = n := by
  rw [Int.add_zero, Int.emod_eq_of_lt (by omega) (by exact_mod_cast h)]
  exact Int.toNat_natCast n

theorem applyEditsLoop_nil (B : Buffer) (folds : List (Anchor × Anchor))
    (fuel : Nat) (cur : ChCursor) (newT : List Transform) :
    applyEditsLoop B folds fuel [] cur newT = .ok (newT, cur) := by
  cases fuel <;> rfl

/-- One iteration of the rebuild loop on a single edit, with every
intermediate value supplied as an equation. -/
theorem applyEditsLoop_one (B : Buffer) (folds : List (Anchor × Anchor))
    (fuel : Nat) (edit : Edit) (cur : ChCursor) (newT newT0 : List Transform)
    (rest1 : List Transform) (pos1 : Nat) (cur2 : ChCursor) (d0 : Int)
    (nE : Nat) (anch : Anchor) (FR : List (Nat × Nat))
    (emitted : List Transform)
    (hslice : sliceLeftChars cur.1 cur.2 edit.old_start = (newT0, (rest1, pos1)))
    (h1 : ¬pos1 > edit.old_start)
    (h2 : ¬edit.new_start + pos1 < edit.old_start)
    (hcur2 : cursorNextChars (seekRightChars rest1 pos1 edit.old_end) = cur2)
    (hd0 : Edit.delta ⟨pos1, edit.old_end,
      edit.new_start - (edit.old_start - pos1), edit.new_end⟩ = d0)
    (hnE : ((((edit.new_start - (edit.old_start - pos1)) + (cur2.2 - pos1) : Nat)
      : Int) + d0) % (2 : Int) ^ 64 = (nE : Int))
    (hanch : anchorBefore B (edit.new_start - (edit.old_start - pos1)) = .ok anch)
    (hFR : (folds.drop (findInsertionIndex folds
        fun probe => probe.1.blt anch)).map
      (fun f => (f.1.toOffset, f.2.toOffset)) = FR)
    (hemit : emitFolds B nE (FR.length + 1) FR (newT ++ newT0) = .ok emitted) :
    applyEditsLoop B folds (fuel + 1) [edit] cur newT =
      .ok ((if (sumSummary emitted).buffer.chars < nE then
        emitted ++ [passthrough
          (textSummaryForRange B (sumSummary emitted).buffer.chars nE)]
        else emitted), cur2) := by
  unfold applyEditsLoop
  simp only [hslice, coalesceEdits]
  rw [if_neg h1, if_neg h2]
  simp only [hcur2, hd0]
  rw [hnE]
  simp only [Int.toNat_natCast, hanch, hFR, hemit, List.drop_zero]
  exact applyEditsLoop_nil B folds fuel cur2 _

theorem sumSummary_nil_chars :
    (sumSummary ([] : List Transform)).buffer.chars = 0 := rfl

theorem emitFolds_nil (B : Buffer) (nE : Nat) (newT : List Transform) :
    ∀ fuel, emitFolds B nE fuel [] newT = .ok newT := by
  intro fuel
  cases fuel <;> rfl

/-- Emitting a single fold range below the bound from an empty accumulator. -/
theorem emitFolds_one (B : Buffer) (nE s e fuel : Nat) (hlt : s < nE) :
    emitFolds B nE (fuel + 1) [(s, e)] [] =
      .ok ((if 0 < s then [passthrough (textSummaryForRange B 0 s)] else []) ++
        (if s < e then [foldTransform (textSummaryForRange B s e)] else [])) := by
  unfold emitFolds
  rw [if_pos hlt,
    if_pos (show (sumSummary ([] : List Transform)).buffer.chars ≤ s from
      Nat.zero_le s)]
  simp only [absorbFolds, List.drop_zero]
  rw [emitFolds_nil]
  by_cases hss : 0 < s <;> by_cases hse : s < e <;>
    simp [hss, hse, gt_iff_lt, sumSummary_nil_chars] <;> omega

/-- Emitting a single fold range whose accumulator already covers exactly its
start, when the range is empty-or-reversed: nothing is added. -/
theorem emitFolds_one_acc (B : Buffer) (nE s e fuel : Nat)
    (newT : List Transform) (hlt : s < nE)
    (hsum : (sumSummary newT).buffer.chars = s) (hnse : ¬s < e) :
    emitFolds B nE (fuel + 1) [(s, e)] newT = .ok newT := by
  unfold emitFolds
  rw [if_pos hlt, if_pos (le_of_eq hsum)]
  simp only [absorbFolds, List.drop_zero]
  rw [if_neg (show ¬s > (sumSummary newT).buffer.chars from by omega),
    if_neg (show ¬e > s from hnse)]
  exact emitFolds_nil B nE newT fuel

/-- Emitting a duplicated fold range below the bound from an empty
accumulator: the duplicate is absorbed (or re-visited and dropped), so the
result matches the single emission. -/
theorem emitFolds_pair (B : Buffer) (nE s e fuel : Nat) (hlt : s < nE)
    (hs : s ≤ B.length) :
    emitFolds B nE (fuel + 2) [(s, e), (s, e)] [] =
      .ok ((if 0 < s then [passthrough (textSummaryForRange B 0 s)] else []) ++
        (if s < e then [foldTransform (textSummaryForRange B s e)] else [])) := by
  by_cases hse' : s ≤ e
  · unfold emitFolds
    rw [if_pos hlt,
      if_pos (show (sumSummary ([] : List Transform)).buffer.chars ≤ s from
        Nat.zero_le s)]
    simp only [absorbFolds, if_pos hse', Nat.max_self]
    rw [show List.drop (0 + 1) [(s, e)] = [] from rfl]
    rw [emitFolds_nil]
    by_cases hss : 0 < s <;> by_cases hse : s < e <;>
      simp [hss, hse, gt_iff_lt, sumSummary_nil_chars] <;> omega
  · have hss : 0 < s := by omega
    have hnse : ¬s < e := by omega
    unfold emitFolds
    rw [if_pos hlt,
      if_pos (show (sumSummary ([] : List Transform)).buffer.chars ≤ s from
        Nat.zero_le s)]
    simp only [absorbFolds, if_neg hse', List.drop_zero]
    rw [if_pos (show s > (sumSummary ([] : List Transform)).buffer.chars from hss),
      if_neg (show ¬e > s from hnse)]
    have hsum : (sumSummary ([] ++ [passthrough (textSummaryForRange B
        (sumSummary ([] : List Transform)).buffer.chars s)])).buffer.chars = s := by
      show (textSummaryForRange B 0 s).chars + 0 = s
      rw [textSummaryForRange_chars B 0 s (Nat.zero_le s) hs]
      omega
    rw [emitFolds_one_acc B nE s e fuel _ hlt hsum hnse]
    simp [hss, hnse, sumSummary_nil_chars]


/-- Assembling one rebuild iteration's output into `foldOnceTree`. -/
theorem foldOnce_assemble (B : Buffer) (s e : Nat) (hs : s ≤ B.length)
    (he : e ≤ B.length) (hpos : 0 < B.length) (hsN : s < B.length) :
    (if (sumSummary ((if 0 < s then [passthrough (textSummaryForRange B 0 s)]
          else []) ++
        (if s < e then [foldTransform (textSummaryForRange B s e)]
          else []))).buffer.chars < B.length then
      ((if 0 < s then [passthrough (textSummaryForRange B 0 s)] else []) ++
        (if s < e then [foldTransform (textSummaryForRange B s e)] else [])) ++
        [passthrough (textSummaryForRange B
          (sumSummary ((if 0 < s then [passthrough (textSummaryForRange B 0 s)]
              else []) ++
            (if s < e then [foldTransform (textSummaryForRange B s e)]
              else []))).buffer.chars B.length)]
      else ((if 0 < s then [passthrough (textSummaryForRange B 0 s)] else []) ++
        (if s < e then [foldTransform (textSummaryForRange B s e)] else []))) =
      foldOnceTree B s e := by
  by_cases hss : 0 < s <;> by_cases hse : s < e
  · simp only [if_pos hss, if_pos hse, List.cons_append, List.nil_append]
    have hc : (sumSummary [passthrough (textSummaryForRange B 0 s),
        foldTransform (textSummaryForRange B s e)]).buffer.chars = e := by
      show (textSummaryForRange B 0 s).chars +
        ((textSummaryForRange B s e).chars + 0) = e
      rw [textSummaryForRange_chars B 0 s (Nat.zero_le s) hs,
        textSummaryForRange_chars B s e (Nat.le_of_lt hse) he]
      omega
    rw [hc]
    have hmax : Nat.max s e = e := Nat.max_eq_right (Nat.le_of_lt hse)
    simp only [foldOnceTree, if_pos hss, if_pos hse, hmax]
    by_cases heN : e < B.length <;> simp [heN]
  · simp only [if_pos hss, if_neg hse, List.append_nil]
    have hc : (sumSummary [passthrough
        (textSummaryForRange B 0 s)]).buffer.chars = s := by
      show (textSummaryForRange B 0 s).chars + 0 = s
      rw [textSummaryForRange_chars B 0 s (Nat.zero_le s) hs]
      omega
    rw [hc]
    have hmax : Nat.max s e = s := Nat.max_eq_left (by omega)
    simp only [foldOnceTree, if_pos hss, if_neg hse, hmax]
    simp [hsN]
  · have hs0 : s = 0 := by omega
    subst hs0
    simp only [if_neg hss, if_pos hse, List.nil_append]
    have hc : (sumSummary [foldTransform
        (textSummaryForRange B 0 e)]).buffer.chars = e := by
      show (textSummaryForRange B 0 e).chars + 0 = e
      rw [textSummaryForRange_chars B 0 e (Nat.zero_le e) he]
      omega
    rw [hc]
    have hmax : Nat.max 0 e = e := Nat.max_eq_right (Nat.zero_le e)
    simp only [foldOnceTree, if_neg hss, if_pos hse, hmax]
    by_cases heN : e < B.length <;> simp [heN]
  · have hs0 : s = 0 := by omega
    have he0 : e = 0 := by omega
    subst hs0
    subst he0
    simp only [if_neg hss, List.nil_append, List.append_nil]
    rw [sumSummary_nil_chars]
    simp only [foldOnceTree, if_neg hss, Nat.max_self]
    simp [hpos]

theorem applyEdits_eval (B : Buffer) (m : FoldMap) (edit : Edit)
    (c0 : ChCursor) (tree2 : List Transform) (cur2 : ChCursor)
    (hc0 : seekRightChars m.transforms 0 0 = c0)
    (hloop : applyEditsLoop B m.folds ([edit].length + 1) [edit] c0 [] =
      .ok (tree2, cur2)) :
    applyEdits B m [edit] = .ok (tree2 ++ cur2.1) := by
  unfold applyEdits
  simp only [hc0, hloop]

/-- A successful `apply_edits` of the single zero-delta edit `s..e` over the
fresh one-passthrough tree yields `foldOnceTree`, whether the fold list holds
one copy of the `s..e` fold or two. -/
theorem applyEdits_once (B : Buffer) (s e : Nat) (hs : s ≤ B.length)
    (he : e ≤ B.length) (hN : B.length < 2 ^ 64)
    (folds1 : List (Anchor × Anchor))
    (hf : folds1 = [(⟨s, true⟩, ⟨e, false⟩)] ∨
      folds1 = [(⟨s, true⟩, ⟨e, false⟩), (⟨s, true⟩, ⟨e, false⟩)]) :
    applyEdits B { transforms := [passthrough (textSummary B)], folds := folds1 }
      [⟨s, e, s, e⟩] = .ok (foldOnceTree B s e) := by
  rcases Nat.eq_zero_or_pos B.length with h0 | hpos
  · have hB : B = [] := List.length_eq_zero.mp h0
    subst hB
    have hs0 : s = 0 := by simp only [List.length_nil, Nat.le_zero] at hs; exact hs
    have he0 : e = 0 := by simp only [List.length_nil, Nat.le_zero] at he; exact he
    subst hs0
    subst he0
    rcases hf with hf | hf <;> subst hf <;> rfl
  · have hPc : (passthrough (textSummary B)).summary.buffer.chars = B.length := by
      show (textSummary B).chars = B.length
      exact textSummary_chars B
    have hcur0 : seekRightChars [passthrough (textSummary B)] 0 0 =
        ([passthrough (textSummary B)], 0) := by
      refine seekRightChars_stop _ _ _ _ ?_
      rw [hPc]
      omega
    have hslice : sliceLeftChars [passthrough (textSummary B)] 0 s =
        ([], ([passthrough (textSummary B)], 0)) := by
      refine sliceLeftChars_stop _ _ _ _ ?_
      rw [hPc]
      omega
    have hcur2 : cursorNextChars (seekRightChars [passthrough (textSummary B)] 0 e)
        = ([], B.length) := by
      by_cases hNe : 0 + (passthrough (textSummary B)).summary.buffer.chars ≤ e
      · rw [seekRightChars_skip _ _ _ _ hNe, seekRightChars_nil]
        show ([], 0 + (passthrough (textSummary B)).summary.buffer.chars) =
          (([] : List Transform), B.length)
        rw [hPc]
        simp
      · rw [seekRightChars_stop _ _ _ _ hNe]
        show ([], 0 + (passthrough (textSummary B)).summary.buffer.chars) =
          (([] : List Transform), B.length)
        rw [hPc]
        simp
    have hd0 : Edit.delta ⟨0, e, s - (s - 0), e⟩ = 0 := by
      simp only [Edit.delta]
      rw [show s - (s - 0) = 0 from by omega]
      simp
    have hnE : ((((s - (s - 0)) + (B.length - 0) : Nat) : Int) + 0) %
        (2 : Int) ^ 64 = (B.length : Int) := by
      rw [show (s - (s - 0)) + (B.length - 0) = B.length from by omega,
        Int.add_zero]
      exact Int.emod_eq_of_lt (by exact_mod_cast Nat.zero_le _)
        (by exact_mod_cast hN)
    have hanch : anchorBefore B (s - (s - 0)) = .ok ⟨0, false⟩ := by
      unfold anchorBefore
      rw [show s - (s - 0) = 0 from by omega, if_pos (Nat.zero_le _)]
    have hblt : Anchor.blt ⟨s, true⟩ ⟨0, false⟩ = false := by
      simp [Anchor.blt]
    have h1 : ¬(0 : Nat) > s := by omega
    have h2 : ¬s + 0 < s := by omega
    rcases hf with hf | hf <;> subst hf
    · have hFR : (([((⟨s, true⟩ : Anchor), (⟨e, false⟩ : Anchor))]).drop
          (findInsertionIndex [((⟨s, true⟩ : Anchor), (⟨e, false⟩ : Anchor))]
            fun probe => probe.1.blt ⟨0, false⟩)).map
          (fun f => (f.1.toOffset, f.2.toOffset)) = [(s, e)] := by
        simp [findInsertionIndex, List.takeWhile, hblt, Anchor.toOffset]
      by_cases hsN : s < B.length
      · rw [applyEdits_eval B _ ⟨s, e, s, e⟩ ([passthrough (textSummary B)], 0)
          _ (([], B.length)) hcur0
          (applyEditsLoop_one B _ _ ⟨s, e, s, e⟩ _ [] []
            [passthrough (textSummary B)] 0 ([], B.length) 0 B.length
            ⟨0, false⟩ [(s, e)] _
            hslice h1 h2 hcur2 hd0 hnE hanch hFR
            (emitFolds_one B B.length s e 1 hsN))]
        show Except.ok (_ ++ ([] : List Transform)) = _
        rw [List.append_nil, foldOnce_assemble B s e hs he hpos hsN]
      · have hsN' : s = B.length := by omega
        rw [applyEdits_eval B _ ⟨s, e, s, e⟩ ([passthrough (textSummary B)], 0)
          _ (([], B.length)) hcur0
          (applyEditsLoop_one B _ _ ⟨s, e, s, e⟩ _ [] []
            [passthrough (textSummary B)] 0 ([], B.length) 0 B.length
            ⟨0, false⟩ [(s, e)] []
            hslice h1 h2 hcur2 hd0 hnE hanch hFR
            (by unfold emitFolds; rw [if_neg hsN]; rfl))]
        rw [sumSummary_nil_chars, if_pos hpos]
        subst hsN'
        show Except.ok (([] ++ [passthrough (textSummaryForRange B 0 B.length)]) ++
          ([] : List Transform)) = _
        have h3 : foldOnceTree B B.length e =
            [passthrough (textSummaryForRange B 0 B.length)] := by
          unfold foldOnceTree
          rw [if_pos hpos, if_neg (show ¬B.length < e from by omega),
            show Nat.max B.length e = B.length from Nat.max_eq_left he,
            if_neg (show ¬B.length < B.length from by omega)]
          simp
        rw [h3]
        simp
    · have hFR : (([((⟨s, true⟩ : Anchor), (⟨e, false⟩ : Anchor)),
          ((⟨s, true⟩ : Anchor), (⟨e, false⟩ : Anchor))]).drop
          (findInsertionIndex [((⟨s, true⟩ : Anchor), (⟨e, false⟩ : Anchor)),
            ((⟨s, true⟩ : Anchor), (⟨e, false⟩ : Anchor))]
            fun probe => probe.1.blt ⟨0, false⟩)).map
          (fun f => (f.1.toOffset, f.2.toOffset)) = [(s, e), (s, e)] := by
        simp [findInsertionIndex, List.takeWhile, hblt, Anchor.toOffset]
      by_cases hsN : s < B.length
      · rw [applyEdits_eval B _ ⟨s, e, s, e⟩ ([passthrough (textSummary B)], 0)
          _ (([], B.length)) hcur0
          (applyEditsLoop_one B _ _ ⟨s, e, s, e⟩ _ [] []
            [passthrough (textSummary B)] 0 ([], B.length) 0 B.length
            ⟨0, false⟩ [(s, e), (s, e)] _
            hslice h1 h2 hcur2 hd0 hnE hanch hFR
            (emitFolds_pair B B.length s e 1 hsN hs))]
        show Except.ok (_ ++ ([] : List Transform)) = _
        rw [List.append_nil, foldOnce_assemble B s e hs he hpos hsN]
      · have hsN' : s = B.length := by omega
        rw [applyEdits_eval B _ ⟨s, e, s, e⟩ ([passthrough (textSummary B)], 0)
          _ (([], B.length)) hcur0
          (applyEditsLoop_one B _ _ ⟨s, e, s, e⟩ _ [] []
            [passthrough (textSummary B)] 0 ([], B.length) 0 B.length
            ⟨0, false⟩ [(s, e), (s, e)] []
            hslice h1 h2 hcur2 hd0 hnE hanch hFR
            (by unfold emitFolds; rw [if_neg hsN]; rfl))]
        rw [sumSummary_nil_chars, if_pos hpos]
        subst hsN'
        show Except.ok (([] ++ [passthrough (textSummaryForRange B 0 B.length)]) ++
          ([] : List Transform)) = _
        have h3 : foldOnceTree B B.length e =
            [passthrough (textSummaryForRange B 0 B.length)] := by
          unfold foldOnceTree
          rw [if_pos hpos, if_neg (show ¬B.length < e from by omega),
            show Nat.max B.length e = B.length from Nat.max_eq_left he,
            if_neg (show ¬B.length < B.length from by omega)]
          simp
        rw [h3]
        simp

/-- Advancing from buffer offset `e` (however expressed) over the optional
trailing passthrough lands the cursor at the buffer end. -/
theorem tailcursor (B : Buffer) (e P : Nat) (hP : P = e) (heN : e ≤ B.length) :
    cursorNextChars (seekRightChars
      (if e < B.length then [passthrough (textSummaryForRange B e B.length)]
        else []) P e) = ([], B.length) := by
  rw [hP]
  have hb : (passthrough (textSummaryForRange B e B.length)).summary.buffer.chars
      = B.length - e := by
    show (textSummaryForRange B e B.length).chars = B.length - e
    rw [textSummaryForRange_chars B e B.length heN (Nat.le_refl _)]
  by_cases heN' : e < B.length
  · rw [if_pos heN', seekRightChars_stop _ _ _ _ (by rw [hb]; omega)]
    show ([], e + (passthrough
      (textSummaryForRange B e B.length)).summary.buffer.chars) =
      (([] : List Transform), B.length)
    rw [hb]
    exact congrArg (Prod.mk ([] : List Transform)) (by omega)
  · rw [if_neg heN', seekRightChars_nil]
    show (([] : List Transform), e) = (([] : List Transform), B.length)
    exact congrArg (Prod.mk ([] : List Transform)) (by omega)

/-- Seeking right to a target at or past `s` skips the optional leading
passthrough `[0, s)`. -/
theorem headskip (B : Buffer) (s tgt : Nat) (L : List Transform)
    (hs : s ≤ B.length) (hst : s ≤ tgt) :
    seekRightChars ((if 0 < s then [passthrough (textSummaryForRange B 0 s)]
      else []) ++ L) 0 tgt = seekRightChars L s tgt := by
  by_cases hss : 0 < s
  · rw [if_pos hss, List.singleton_append]
    have hb1 : (passthrough (textSummaryForRange B 0 s)).summary.buffer.chars
        = s := by
      have h := textSummaryForRange_chars B 0 s (Nat.zero_le s) hs
      show (textSummaryForRange B 0 s).chars = s
      omega
    rw [seekRightChars_skip _ _ _ _ (by rw [hb1]; omega)]
    have hp : 0 + (passthrough
        (textSummaryForRange B 0 s)).summary.buffer.chars = s := by
      rw [hb1]
      omega
    rw [hp]
  · rw [if_neg hss, List.nil_append, show s = 0 from by omega]

theorem foldOnceTree_cursor0 (B : Buffer) (s e : Nat) (hs : s ≤ B.length)
    (he : e ≤ B.length) (hpos : 0 < B.length) :
    seekRightChars (foldOnceTree B s e) 0 0 = (foldOnceTree B s e, 0) := by
  by_cases hss : 0 < s
  · have hb1 : (passthrough (textSummaryForRange B 0 s)).summary.buffer.chars
        = s := by
      have h := textSummaryForRange_chars B 0 s (Nat.zero_le s) hs
      show (textSummaryForRange B 0 s).chars = s
      omega
    have hT : foldOnceTree B s e = passthrough (textSummaryForRange B 0 s) ::
        ((if s < e then [foldTransform (textSummaryForRange B s e)] else []) ++
          (if Nat.max s e < B.length then
            [passthrough (textSummaryForRange B (Nat.max s e) B.length)]
            else [])) := by
      unfold foldOnceTree
      rw [if_pos hss, List.singleton_append, List.cons_append]
    rw [hT]
    exact seekRightChars_stop _ _ _ _ (by rw [hb1]; omega)
  · have hs0 : s = 0 := by omega
    subst hs0
    by_cases hse : 0 < e
    · have hb2 : (foldTransform (textSummaryForRange B 0 e)).summary.buffer.chars
          = e := by
        have h := textSummaryForRange_chars B 0 e (Nat.zero_le e) he
        show (textSummaryForRange B 0 e).chars = e
        omega
      have hT : foldOnceTree B 0 e = foldTransform (textSummaryForRange B 0 e) ::
          (if e < B.length then
            [passthrough (textSummaryForRange B e B.length)] else []) := by
        unfold foldOnceTree
        rw [if_neg hss, if_pos hse, List.nil_append, List.singleton_append,
          show Nat.max 0 e = e from Nat.max_eq_right (Nat.zero_le e)]
      rw [hT]
      exact seekRightChars_stop _ _ _ _ (by rw [hb2]; omega)
    · have he0 : e = 0 := by omega
      subst he0
      have hbN : (passthrough
          (textSummaryForRange B 0 B.length)).summary.buffer.chars = B.length := by
        have h := textSummaryForRange_chars B 0 B.length (Nat.zero_le _)
          (Nat.le_refl _)
        show (textSummaryForRange B 0 B.length).chars = B.length
        omega
      have hT : foldOnceTree B 0 0 =
          [passthrough (textSummaryForRange B 0 B.length)] := by
        unfold foldOnceTree
        rw [if_neg hss, show Nat.max 0 0 = 0 from rfl, if_pos hpos]
        simp
      rw [hT]
      exact seekRightChars_stop _ _ _ _ (by rw [hbN]; omega)

theorem foldOnceTree_slice (B : Buffer) (s e : Nat) (hs : s ≤ B.length)
    (he : e ≤ B.length) (hpos : 0 < B.length) :
    sliceLeftChars (foldOnceTree B s e) 0 s = ([], (foldOnceTree B s e, 0)) := by
  by_cases hss : 0 < s
  · have hb1 : (passthrough (textSummaryForRange B 0 s)).summary.buffer.chars
        = s := by
      have h := textSummaryForRange_chars B 0 s (Nat.zero_le s) hs
      show (textSummaryForRange B 0 s).chars = s
      omega
    have hT : foldOnceTree B s e = passthrough (textSummaryForRange B 0 s) ::
        ((if s < e then [foldTransform (textSummaryForRange B s e)] else []) ++
          (if Nat.max s e < B.length then
            [passthrough (textSummaryForRange B (Nat.max s e) B.length)]
            else [])) := by
      unfold foldOnceTree
      rw [if_pos hss, List.singleton_append, List.cons_append]
    rw [hT]
    exact sliceLeftChars_stop _ _ _ _ (by rw [hb1]; omega)
  · have hs0 : s = 0 := by omega
    subst hs0
    by_cases hse : 0 < e
    · have hT : foldOnceTree B 0 e = foldTransform (textSummaryForRange B 0 e) ::
          (if e < B.length then
            [passthrough (textSummaryForRange B e B.length)] else []) := by
        unfold foldOnceTree
        rw [if_neg hss, if_pos hse, List.nil_append, List.singleton_append,
          show Nat.max 0 e = e from Nat.max_eq_right (Nat.zero_le e)]
      rw [hT]
      exact sliceLeftChars_stop _ _ _ _ (by omega)
    · have he0 : e = 0 := by omega
      subst he0
      have hT : foldOnceTree B 0 0 =
          [passthrough (textSummaryForRange B 0 B.length)] := by
        unfold foldOnceTree
        rw [if_neg hss, show Nat.max 0 0 = 0 from rfl, if_pos hpos]
        simp
      rw [hT]
      exact sliceLeftChars_stop _ _ _ _ (by omega)

/-- A successful `apply_edits` of the same zero-delta edit `s..e` over
`foldOnceTree` with the fold duplicated returns the tree unchanged. -/
theorem applyEdits_twice (B : Buffer) (s e : Nat) (hs : s ≤ B.length)
    (he : e ≤ B.length) (hN : B.length < 2 ^ 64) :
    applyEdits B
      { transforms := foldOnceTree B s e
        folds := [(⟨s, true⟩, ⟨e, false⟩), (⟨s, true⟩, ⟨e, false⟩)] }
      [⟨s, e, s, e⟩] = .ok (foldOnceTree B s e) := by
  rcases Nat.eq_zero_or_pos B.length with h0 | hpos
  · have hB : B = [] := List.length_eq_zero.mp h0
    subst hB
    have hs0 : s = 0 := by simp only [List.length_nil, Nat.le_zero] at hs; exact hs
    have he0 : e = 0 := by simp only [List.length_nil, Nat.le_zero] at he; exact he
    subst hs0
    subst he0
    rfl
  · have hd0 : Edit.delta ⟨0, e, s - (s - 0), e⟩ = 0 := by
      simp only [Edit.delta]
      rw [show s - (s - 0) = 0 from by omega]
      simp
    have hnEN : ((((s - (s - 0)) + (B.length - 0) : Nat) : Int) + 0) %
        (2 : Int) ^ 64 = (B.length : Int) := by
      rw [show (s - (s - 0)) + (B.length - 0) = B.length from by omega,
        Int.add_zero]
      exact Int.emod_eq_of_lt (by exact_mod_cast Nat.zero_le _)
        (by exact_mod_cast hN)
    have hanch : anchorBefore B (s - (s - 0)) = .ok ⟨0, false⟩ := by
      unfold anchorBefore
      rw [show s - (s - 0) = 0 from by omega, if_pos (Nat.zero_le _)]
    have hblt : Anchor.blt ⟨s, true⟩ ⟨0, false⟩ = false := by
      simp [Anchor.blt]
    have h1 : ¬(0 : Nat) > s := by omega
    have h2 : ¬s + 0 < s := by omega
    have hFR : (([((⟨s, true⟩ : Anchor), (⟨e, false⟩ : Anchor)),
        ((⟨s, true⟩ : Anchor), (⟨e, false⟩ : Anchor))]).drop
        (findInsertionIndex [((⟨s, true⟩ : Anchor), (⟨e, false⟩ : Anchor)),
          ((⟨s, true⟩ : Anchor), (⟨e, false⟩ : Anchor))]
          fun probe => probe.1.blt ⟨0, false⟩)).map
        (fun f => (f.1.toOffset, f.2.toOffset)) = [(s, e), (s, e)] := by
      simp [findInsertionIndex, List.takeWhile, hblt, Anchor.toOffset]
    have hcur0 := foldOnceTree_cursor0 B s e hs he hpos
    have hslice := foldOnceTree_slice B s e hs he hpos
    rcases Nat.lt_trichotomy s e with hse | hse | hse
    · -- s < e: the fold transform is present
      have hsN : s < B.length := Nat.lt_of_lt_of_le hse he
      have hb2 : (foldTransform (textSummaryForRange B s e)).summary.buffer.chars
          = e - s := by
        show (textSummaryForRange B s e).chars = e - s
        rw [textSummaryForRange_chars B s e (Nat.le_of_lt hse) he]
      have hT1 : foldOnceTree B s e =
          (if 0 < s then [passthrough (textSummaryForRange B 0 s)] else []) ++
            (foldTransform (textSummaryForRange B s e) ::
              (if e < B.length then
                [passthrough (textSummaryForRange B e B.length)] else [])) := by
        unfold foldOnceTree
        rw [if_pos hse, show Nat.max s e = e from
          Nat.max_eq_right (Nat.le_of_lt hse), List.append_assoc,
          List.singleton_append]
      have hcur2 : cursorNextChars (seekRightChars (foldOnceTree B s e) 0 e)
          = ([], B.length) := by
        rw [hT1, headskip B s e _ hs (Nat.le_of_lt hse),
          seekRightChars_skip _ _ _ _ (show s + (foldTransform
            (textSummaryForRange B s e)).summary.buffer.chars ≤ e from by
              rw [hb2]; omega)]
        exact tailcursor B e _ (by rw [hb2]; omega) he
      rw [applyEdits_eval B _ ⟨s, e, s, e⟩ ((foldOnceTree B s e), 0)
        _ (([], B.length)) hcur0
        (applyEditsLoop_one B _ _ ⟨s, e, s, e⟩ _ [] []
          (foldOnceTree B s e) 0 ([], B.length) 0 B.length
          ⟨0, false⟩ [(s, e), (s, e)] _
          hslice h1 h2 hcur2 hd0 hnEN hanch hFR
          (emitFolds_pair B B.length s e 1 hsN hs))]
      show Except.ok (_ ++ ([] : List Transform)) = _
      rw [List.append_nil, foldOnce_assemble B s e hs he hpos hsN]
    · -- s = e: no fold transform
      subst hse
      have hT1 : foldOnceTree B s s =
          (if 0 < s then [passthrough (textSummaryForRange B 0 s)] else []) ++
            (if s < B.length then
              [passthrough (textSummaryForRange B s B.length)] else []) := by
        unfold foldOnceTree
        rw [if_neg (Nat.lt_irrefl s), List.append_nil,
          show Nat.max s s = s from Nat.max_self s]
      have hcur2 : cursorNextChars (seekRightChars (foldOnceTree B s s) 0 s)
          = ([], B.length) := by
        rw [hT1, headskip B s s _ hs (Nat.le_refl s)]
        exact tailcursor B s s rfl hs
      by_cases hsN : s < B.length
      · rw [applyEdits_eval B _ ⟨s, s, s, s⟩ ((foldOnceTree B s s), 0)
          _ (([], B.length)) hcur0
          (applyEditsLoop_one B _ _ ⟨s, s, s, s⟩ _ [] []
            (foldOnceTree B s s) 0 ([], B.length) 0 B.length
            ⟨0, false⟩ [(s, s), (s, s)] _
            hslice h1 h2 hcur2 hd0 hnEN hanch hFR
            (emitFolds_pair B B.length s s 1 hsN hs))]
        show Except.ok (_ ++ ([] : List Transform)) = _
        rw [List.append_nil, foldOnce_assemble B s s hs hs hpos hsN]
      · rw [applyEdits_eval B _ ⟨s, s, s, s⟩ ((foldOnceTree B s s), 0)
          _ (([], B.length)) hcur0
          (applyEditsLoop_one B _ _ ⟨s, s, s, s⟩ _ [] []
            (foldOnceTree B s s) 0 ([], B.length) 0 B.length
            ⟨0, false⟩ [(s, s), (s, s)] []
            hslice h1 h2 hcur2 hd0 hnEN hanch hFR
            (by unfold emitFolds; rw [if_neg hsN]; rfl))]
        rw [sumSummary_nil_chars, if_pos hpos]
        have hsN' : s = B.length := by omega
        subst hsN'
        show Except.ok (([] ++ [passthrough (textSummaryForRange B 0 B.length)]) ++
          ([] : List Transform)) = _
        have h3 : foldOnceTree B B.length B.length =
            [passthrough (textSummaryForRange B 0 B.length)] := by
          unfold foldOnceTree
          rw [if_pos hpos, if_neg (Nat.lt_irrefl _),
            show Nat.max B.length B.length = B.length from Nat.max_self _,
            if_neg (Nat.lt_irrefl _)]
          simp
        rw [h3]
        simp
    · -- e < s: the edit covers only the leading passthrough
      have hss' : 0 < s := by omega
      have hb1 : (passthrough (textSummaryForRange B 0 s)).summary.buffer.chars
          = s := by
        have h := textSummaryForRange_chars B 0 s (Nat.zero_le s) hs
        show (textSummaryForRange B 0 s).chars = s
        omega
      have hT1 : foldOnceTree B s e = passthrough (textSummaryForRange B 0 s) ::
          (if s < B.length then
            [passthrough (textSummaryForRange B s B.length)] else []) := by
        unfold foldOnceTree
        rw [if_pos hss', if_neg (show ¬s < e from by omega),
          show Nat.max s e = s from Nat.max_eq_left (Nat.le_of_lt hse),
          List.append_nil, List.singleton_append]
      have hcur2 : cursorNextChars (seekRightChars (foldOnceTree B s e) 0 e)
          = ((if s < B.length then
            [passthrough (textSummaryForRange B s B.length)] else []), s) := by
        rw [hT1, seekRightChars_stop _ _ _ _ (show ¬0 + (passthrough
          (textSummaryForRange B 0 s)).summary.buffer.chars ≤ e from by
            rw [hb1]; omega)]
        show ((if s < B.length then
          [passthrough (textSummaryForRange B s B.length)] else []),
          0 + (passthrough (textSummaryForRange B 0 s)).summary.buffer.chars) = _
        rw [hb1]
        exact congrArg (Prod.mk _) (by omega)
      have hnEs : ((((s - (s - 0)) + (s - 0) : Nat) : Int) + 0) %
          (2 : Int) ^ 64 = (s : Int) := by
        rw [show (s - (s - 0)) + (s - 0) = s from by omega, Int.add_zero]
        exact Int.emod_eq_of_lt (by exact_mod_cast Nat.zero_le _)
          (by exact_mod_cast (show s < 2 ^ 64 from by omega))
      rw [applyEdits_eval B _ ⟨s, e, s, e⟩ ((foldOnceTree B s e), 0)
        _ ((if s < B.length then
          [passthrough (textSummaryForRange B s B.length)] else []), s) hcur0
        (applyEditsLoop_one B _ _ ⟨s, e, s, e⟩ _ [] []
          (foldOnceTree B s e) 0
          ((if s < B.length then
            [passthrough (textSummaryForRange B s B.length)] else []), s) 0 s
          ⟨0, false⟩ [(s, e), (s, e)] []
          hslice h1 h2 hcur2 hd0 hnEs hanch hFR
          (by unfold emitFolds; rw [if_neg (show ¬s < s from by omega)]; rfl))]
      rw [sumSummary_nil_chars, if_pos hss']
      show Except.ok (([] ++ [passthrough (textSummaryForRange B 0 s)]) ++
        (if s < B.length then
          [passthrough (textSummaryForRange B s B.length)] else [])) = _
      rw [hT1]
      simp

theorem sortEdits_single (x : Edit) : sortEdits [x] = [x] := rfl

theorem foldRangesLoop_one (B : Buffer) (s e : Nat)
    (folds : List (Anchor × Anchor)) (hs : s ≤ B.length) (he : e ≤ B.length) :
    foldRangesLoop B [(s, e)] folds [] =
      (folds.insertIdx (findInsertionIndex folds fun probe =>
        rangeBlt probe (⟨s, true⟩, ⟨e, false⟩)) (⟨s, true⟩, ⟨e, false⟩),
       [⟨s, e, s, e⟩], none) := by
  have hu1 : usizeToOffset B s = .ok s := by
    unfold usizeToOffset
    rw [if_pos hs]
  have hu2 : usizeToOffset B e = .ok e := by
    unfold usizeToOffset
    rw [if_pos he]
  unfold foldRangesLoop
  dsimp only
  rw [hu1, hu2]
  rfl

theorem foldMap_fold_eval (B : Buffer) (m : FoldMap) (s e : Nat)
    (folds2 : List (Anchor × Anchor)) (ts2 : List Transform)
    (hr : foldRangesLoop B [(s, e)] m.folds [] = (folds2, [⟨s, e, s, e⟩], none))
    (hap : applyEdits B { transforms := m.transforms, folds := folds2 }
      [⟨s, e, s, e⟩] = .ok ts2) :
    FoldMap.fold B m [(s, e)] = ({ transforms := ts2, folds := folds2 }, none) := by
  unfold FoldMap.fold
  simp only [hr, sortEdits_single, hap]

/-- C8: from the fresh map on any buffer, folding any in-range `r = s..e`
twice yields the same display text as folding it once (the duplicate is
merged into the same single fold transform on rebuild), both calls succeed,
and the fold list ends up with two entries for `r`. -/
theorem fold_twice_same_display (B : Buffer) (s e : Nat) (hs : s ≤ B.length)
    (he : e ≤ B.length) (hN : B.length < 2 ^ 64) :
    (FoldMap.fold B (FoldMap.new B) [(s, e)]).2 = none ∧
      (FoldMap.fold B (FoldMap.fold B (FoldMap.new B) [(s, e)]).1 [(s, e)]).2
        = none ∧
      displayText B
        (FoldMap.fold B (FoldMap.fold B (FoldMap.new B) [(s, e)]).1
          [(s, e)]).1.transforms =
        displayText B (FoldMap.fold B (FoldMap.new B) [(s, e)]).1.transforms ∧
      (FoldMap.fold B (FoldMap.fold B (FoldMap.new B) [(s, e)]).1
        [(s, e)]).1.folds =
        [(⟨s, true⟩, ⟨e, false⟩), (⟨s, true⟩, ⟨e, false⟩)] := by
  have hrb : rangeBlt (⟨s, true⟩, ⟨e, false⟩) (⟨s, true⟩, ⟨e, false⟩)
      = false := by
    simp [rangeBlt, Anchor.blt]
  have hfold1 : FoldMap.fold B (FoldMap.new B) [(s, e)] =
      ({ transforms := foldOnceTree B s e
         folds := [(⟨s, true⟩, ⟨e, false⟩)] }, none) := by
    refine foldMap_fold_eval B (FoldMap.new B) s e _ _ ?_ ?_
    · exact (foldRangesLoop_one B s e [] hs he).trans rfl
    · exact applyEdits_once B s e hs he hN _ (Or.inl rfl)
  have hfold2 : FoldMap.fold B
      ({ transforms := foldOnceTree B s e
         folds := [(⟨s, true⟩, ⟨e, false⟩)] } : FoldMap) [(s, e)] =
      ({ transforms := foldOnceTree B s e
         folds := [(⟨s, true⟩, ⟨e, false⟩), (⟨s, true⟩, ⟨e, false⟩)] }, none) := by
    refine foldMap_fold_eval B _ s e _ _ ?_ ?_
    · refine (foldRangesLoop_one B s e [(⟨s, true⟩, ⟨e, false⟩)] hs he).trans ?_
      simp [findInsertionIndex, List.takeWhile, hrb]
    · exact applyEdits_twice B s e hs he hN
  rw [hfold1]
  dsimp only
  rw [hfold2]
  exact ⟨rfl, rfl, rfl, rfl⟩

theorem fold_twice_same_display_witness :
    (1 ≤ sampleBuf.length ∧ 3 ≤ sampleBuf.length ∧
      sampleBuf.length < 2 ^ 64) ∧
    ((FoldMap.fold sampleBuf (FoldMap.new sampleBuf) [(1, 3)]).2 = none ∧
      (FoldMap.fold sampleBuf
        (FoldMap.fold sampleBuf (FoldMap.new sampleBuf) [(1, 3)]).1
        [(1, 3)]).2 = none ∧
      displayText sampleBuf
        (FoldMap.fold sampleBuf
          (FoldMap.fold sampleBuf (FoldMap.new sampleBuf) [(1, 3)]).1
          [(1, 3)]).1.transforms =
        displayText sampleBuf
          (FoldMap.fold sampleBuf (FoldMap.new sampleBuf)
            [(1, 3)]).1.transforms ∧
      (FoldMap.fold sampleBuf
        (FoldMap.fold sampleBuf (FoldMap.new sampleBuf) [(1, 3)]).1
        [(1, 3)]).1.folds =
        [(⟨1, true⟩, ⟨3, false⟩), (⟨1, true⟩, ⟨3, false⟩)]) :=
  ⟨⟨by decide, by decide, by decide⟩,
    fold_twice_same_display sampleBuf 1 3 (by decide) (by decide) (by decide)⟩

end Heat
